import Mathlib

/-!
Verification of the rusticai message-bus and ensemble storage layer.

The message-bus Redis backend (`rustic_ai/messagebus/storage/redis_storage.py`),
the storage-backend factory (`rustic_ai/messagebus/storage/backend_factory.py`),
the ensemble entities (`rustic_ai/ensemble/ensemble.py`), the ensemble manager
(`rustic_ai/ensemble/ensemble_manager.py`) and the ensemble storages
(`rustic_ai/ensemble/storage/`) are embedded from their sources.

The `Message` value type, the Gemstone id generator and the in-memory, file and
SQL message-bus backends are absent from the source tree (only their callers and
tests are present); those are modelled from the specification and are marked
`Modelled from the spec:` in their doc comments.
-/

namespace RusticAi

open scoped List

/-- Modelled from the spec: the `Priority` ordered enumeration
(URGENT < HIGH < NORMAL < LOW, lower ordinal = more urgent);
the `rustic_ai.messagebus.utils` module holding it is absent from the sources. -/
inductive Priority where
  | urgent
  | high
  | normal
  | low
deriving DecidableEq, Repr

/-- Ordinal of a priority value: URGENT = 0, HIGH = 1, NORMAL = 2, LOW = 3. -/
def Priority.ordinal : Priority → Nat
  | .urgent => 0
  | .high => 1
  | .normal => 2
  | .low => 3

/-- Modelled from the spec: the immutable `Message` value type
(`rustic_ai/messagebus/message.py` is absent from the sources).  The wire
encoding in the spec lists `id`, `sender`, `content`, `recipients`, `priority`
(derived from the id), `thread_id`, `in_reply_to` and `topic`; only `id`,
`sender` and `content` take part in any storage-backend semantics (ordering is
by `id`, retraction matches on `sender` and `id`), so the optional routing
fields are not carried here.  `content` stands for the structured payload in
its canonical text encoding. -/
structure Message where
  id : Nat
  sender : String
  content : String
deriving DecidableEq, Repr

/-- Sort key of a message inside a Redis sorted set: entries are ordered by
score (the message id) and, between equal scores, by the member string (the
canonical serialization, whose leading fields are the id and the sender).  The
member-string tie-break is represented by the lexicographic extension to the
remaining fields; serialization is lossless, so the key is injective. -/
def Message.key (m : Message) : Nat ×ₗ ((List Char) ×ₗ (List Char)) :=
  toLex (m.id, toLex (m.sender.data, m.content.data))

/-- The sorted-set order on inbox entries. -/
def Message.le (a b : Message) : Prop := a.key ≤ b.key

/-- The strict sorted-set order on inbox entries. -/
def Message.lt (a b : Message) : Prop := a.key < b.key

instance : DecidableRel Message.le := fun a b =>
  inferInstanceAs (Decidable (a.key ≤ b.key))

instance : DecidableRel Message.lt := fun a b =>
  inferInstanceAs (Decidable (a.key < b.key))

instance : IsTotal Message Message.le := ⟨fun a b => le_total a.key b.key⟩

instance : IsTrans Message Message.le := ⟨fun _ _ _ h1 h2 => le_trans h1 h2⟩

instance : IsAntisymm Message Message.le :=
  ⟨fun a b h1 h2 => by
    have h := le_antisymm h1 h2
    cases a
    cases b
    simp [Message.key, Prod.ext_iff] at h
    obtain ⟨x1, x2, x3⟩ := h
    simp_all [String.ext_iff]⟩

/-- Sorted in the strict sorted-set order: this is the representation
invariant of a Redis sorted set (members are unique, totally ordered by
score-then-member). -/
def SortedInbox (l : List Message) : Prop := l.Sorted Message.lt

instance : DecidablePred SortedInbox := fun l =>
  inferInstanceAs (Decidable (l.Sorted Message.lt))

/-! ## Redis message-bus backend

Embedding of `rustic_ai/messagebus/storage/redis_storage.py`.  A Redis sorted
set is represented as the list of its members in (score, member) order; `zadd`
with an already-present member only rewrites its score (which equals the
message id, hence is unchanged), so it is an insert-if-absent; `zrange k 0 0`
is the head of the list; `zrem` removes the unique entry with the given
member. -/

/-- `RedisStorage._get_inbox_id`: the sorted-set key of one inbox. -/
def get_inbox_id (message_bus_id client_id : String) : String :=
  message_bus_id ++ "-" ++ client_id

/-- State of the Redis server visible to `RedisStorage`: each key holds a
sorted set, represented as its member list in ascending (score, member)
order.  A key that was never written (or was deleted) holds `[]`. -/
structure RedisStorage where
  zsets : String → List Message

/-- The state of a fresh Redis database: every key is empty. -/
def RedisStorage.empty : RedisStorage := ⟨fun _ => []⟩

/-- `ZADD key (score = message id) (member = serialized message)` on a sorted
set in member-list representation: a present member keeps its (identical)
score, an absent member is inserted at its ordered position. -/
def zadd (l : List Message) (m : Message) : List Message :=
  if m ∈ l then l else l.orderedInsert Message.le m

/-- `RedisStorage.create_inbox`: Redis creates keys on the fly, so this is a
no-op (the method body is `pass`). -/
def RedisStorage.create_inbox (st : RedisStorage)
    (_message_bus_id _client_id : String) : RedisStorage := st

/-- `RedisStorage.remove_inbox`: `DEL` on the inbox key. -/
def RedisStorage.remove_inbox (st : RedisStorage)
    (message_bus_id client_id : String) : RedisStorage :=
  ⟨fun k => if k = get_inbox_id message_bus_id client_id then [] else st.zsets k⟩

/-- `RedisStorage.add_message_to_inbox`: `ZADD` of the serialized message with
its id as score into the inbox of the recipient. -/
def RedisStorage.add_message_to_inbox (st : RedisStorage)
    (message_bus_id recipient_id : String) (message : Message) : RedisStorage :=
  ⟨fun k =>
    if k = get_inbox_id message_bus_id recipient_id then zadd (st.zsets k) message
    else st.zsets k⟩

/-- The `while message.id == last_read_message_id` loop of
`RedisStorage.get_next_unread_message`, acting on the member list of one
sorted set: read the lowest entry (`zrange 0 0`); while its id equals the
cursor, `zrem` it and re-read; return the first differing entry, or `none`
when the set runs empty.  Returns the result together with the sorted set
left behind by the `zrem` calls. -/
def getNextFromInbox : List Message → Nat → Option Message × List Message
  | [], _ => (none, [])
  | m :: rest, last_read_message_id =>
    if m.id = last_read_message_id then getNextFromInbox rest last_read_message_id
    else (some m, m :: rest)

/-- `RedisStorage.get_next_unread_message`: runs the skip loop on the inbox of
the recipient.  The Python method returns only the message; the state
component records the effect of the `zrem` calls on the server. -/
def RedisStorage.get_next_unread_message (st : RedisStorage)
    (message_bus_id recipient_id : String) (last_read_message_id : Nat) :
    Option Message × RedisStorage :=
  let k := get_inbox_id message_bus_id recipient_id
  let r := getNextFromInbox (st.zsets k) last_read_message_id
  (r.1, ⟨fun k2 => if k2 = k then r.2 else st.zsets k2⟩)

/-- The inner loop of `RedisStorage.remove_received_message` for one
recipient: walk the inbox in sorted order (`zrange 0 -1`), `zrem` the first
entry whose sender and id both match, then `break`. -/
def removeFirstMatch (sender_id : String) (message_id : Nat) :
    List Message → List Message
  | [] => []
  | m :: rest =>
    if m.sender = sender_id ∧ m.id = message_id then rest
    else m :: removeFirstMatch sender_id message_id rest

/-- `RedisStorage.remove_received_message`: for each listed recipient, remove
the first (sender, id)-matching entry from the inbox of that recipient. -/
def RedisStorage.remove_received_message (st : RedisStorage)
    (message_bus_id sender_id : String) (recipient_ids : List String)
    (message_id : Nat) : RedisStorage :=
  recipient_ids.foldl
    (fun acc recipient_id =>
      ⟨fun k =>
        if k = get_inbox_id message_bus_id recipient_id then
          removeFirstMatch sender_id message_id (acc.zsets k)
        else acc.zsets k⟩)
    st

/-- Iterated reads from one sorted set: apply `getNextFromInbox` for each
cursor in turn, threading the state, and collect the hits.  Used to express
that an entry deleted by a read can never be returned by any later read. -/
def iterGets : List Message → List Nat → List Message
  | _, [] => []
  | l, c :: cs =>
    match getNextFromInbox l c with
    | (none, l2) => iterGets l2 cs
    | (some m, l2) => m :: iterGets l2 cs

/-! ## In-memory, file and SQL message-bus backends

Modelled from the spec: `in_memory_storage.py`, `file_based_storage.py` and
`sql_storage.py` of the message bus are absent from the sources; only the
factory that constructs them and the shared black-box test suite remain.  The
spec fixes their observable contract to be identical to the Redis backend
(section 4.3, the cross-backend equivalence property, and the pop-the-front
cursor contract), while each engine keeps its own representation:

* in-memory: a per-key list in arrival order, ordered only on retrieval;
* file: a file per inbox holding the messages in most-recent-first order,
  ordered on retrieval;
* SQL: one relational table of (inbox key, message) rows; retrieval selects
  the rows of one inbox ordered by message id.

All three key inboxes by the same `(bus_id, client_id)` composite key the
Redis backend uses.  Retrieval follows the section 4.3 contract: take the
lowest-ordered entry, and while its id equals the cursor delete it and
repeat. -/

/-- Modelled from the spec: the in-process map backend.  Inboxes are kept in
arrival order and sorted at read time. -/
structure InMemoryStorage where
  inboxes : String → List Message

/-- A fresh in-memory backend: every inbox is empty. -/
def InMemoryStorage.empty : InMemoryStorage := ⟨fun _ => []⟩

/-- Modelled from the spec: in-memory `create_inbox` is idempotent creation in
a map whose keys are implicit, hence a no-op. -/
def InMemoryStorage.create_inbox (st : InMemoryStorage)
    (_message_bus_id _client_id : String) : InMemoryStorage := st

/-- Modelled from the spec: in-memory `remove_inbox` drops the whole entry. -/
def InMemoryStorage.remove_inbox (st : InMemoryStorage)
    (message_bus_id client_id : String) : InMemoryStorage :=
  ⟨fun k => if k = get_inbox_id message_bus_id client_id then [] else st.inboxes k⟩

/-- Modelled from the spec: in-memory `add_message_to_inbox` appends to the
inbox list; the inbox is a set of messages, so a message already present is
not duplicated. -/
def InMemoryStorage.add_message_to_inbox (st : InMemoryStorage)
    (message_bus_id recipient_id : String) (message : Message) : InMemoryStorage :=
  ⟨fun k =>
    if k = get_inbox_id message_bus_id recipient_id then
      if message ∈ st.inboxes k then st.inboxes k else st.inboxes k ++ [message]
    else st.inboxes k⟩

/-- Modelled from the spec: in-memory `get_next_unread_message` sorts the
inbox by message order and applies the pop-the-front cursor contract of
section 4.3 (identical to the Redis loop); entries consumed by the skip are
deleted. -/
def InMemoryStorage.get_next_unread_message (st : InMemoryStorage)
    (message_bus_id recipient_id : String) (last_read_message_id : Nat) :
    Option Message × InMemoryStorage :=
  let k := get_inbox_id message_bus_id recipient_id
  let r := getNextFromInbox ((st.inboxes k).insertionSort Message.le)
    last_read_message_id
  (r.1, ⟨fun k2 => if k2 = k then r.2 else st.inboxes k2⟩)

/-- Modelled from the spec: the file-per-inbox backend.  Each inbox file holds
its messages most-recent-first; retrieval orders them. -/
structure FileBasedStorage where
  files : String → List Message

/-- A fresh file backend: no inbox file exists (reads as empty). -/
def FileBasedStorage.empty : FileBasedStorage := ⟨fun _ => []⟩

/-- Modelled from the spec: file `create_inbox` creates an empty file if
needed; it does not change the stored messages. -/
def FileBasedStorage.create_inbox (st : FileBasedStorage)
    (_message_bus_id _client_id : String) : FileBasedStorage := st

/-- Modelled from the spec: file `remove_inbox` deletes the inbox file. -/
def FileBasedStorage.remove_inbox (st : FileBasedStorage)
    (message_bus_id client_id : String) : FileBasedStorage :=
  ⟨fun k => if k = get_inbox_id message_bus_id client_id then [] else st.files k⟩

/-- Modelled from the spec: file `add_message_to_inbox` rewrites the file with
the new message prepended; a message already present is not duplicated. -/
def FileBasedStorage.add_message_to_inbox (st : FileBasedStorage)
    (message_bus_id recipient_id : String) (message : Message) : FileBasedStorage :=
  ⟨fun k =>
    if k = get_inbox_id message_bus_id recipient_id then
      if message ∈ st.files k then st.files k else message :: st.files k
    else st.files k⟩

/-- Modelled from the spec: file `get_next_unread_message` reads the whole
file, orders the messages, and applies the section 4.3 cursor contract,
rewriting the file without the entries the skip consumed. -/
def FileBasedStorage.get_next_unread_message (st : FileBasedStorage)
    (message_bus_id recipient_id : String) (last_read_message_id : Nat) :
    Option Message × FileBasedStorage :=
  let k := get_inbox_id message_bus_id recipient_id
  let r := getNextFromInbox ((st.files k).insertionSort Message.le)
    last_read_message_id
  (r.1, ⟨fun k2 => if k2 = k then r.2 else st.files k2⟩)

/-- Modelled from the spec: the relational backend.  One table of
(inbox key, message) rows shared by all inboxes, in insertion order. -/
structure SQLStorage where
  rows : List (String × Message)

/-- A fresh SQL backend: the table is empty. -/
def SQLStorage.empty : SQLStorage := ⟨[]⟩

/-- The rows of one inbox, in table order (a `SELECT ... WHERE key = k`). -/
def SQLStorage.inbox_view (rows : List (String × Message)) (k : String) :
    List Message :=
  (rows.filter (fun row => row.1 = k)).map Prod.snd

/-- Modelled from the spec: SQL `create_inbox` needs no per-inbox row. -/
def SQLStorage.create_inbox (st : SQLStorage)
    (_message_bus_id _client_id : String) : SQLStorage := st

/-- Modelled from the spec: SQL `remove_inbox` deletes every row of the
inbox. -/
def SQLStorage.remove_inbox (st : SQLStorage)
    (message_bus_id client_id : String) : SQLStorage :=
  ⟨st.rows.filter (fun row => row.1 ≠ get_inbox_id message_bus_id client_id)⟩

/-- Modelled from the spec: SQL `add_message_to_inbox` inserts a row; a row
already present is not duplicated. -/
def SQLStorage.add_message_to_inbox (st : SQLStorage)
    (message_bus_id recipient_id : String) (message : Message) : SQLStorage :=
  let k := get_inbox_id message_bus_id recipient_id
  if (k, message) ∈ st.rows then st else ⟨st.rows ++ [(k, message)]⟩

/-- Modelled from the spec: SQL `get_next_unread_message` selects the rows of
the inbox ordered by message id and applies the section 4.3 cursor contract;
the rows of the inbox are rewritten without the entries the skip consumed. -/
def SQLStorage.get_next_unread_message (st : SQLStorage)
    (message_bus_id recipient_id : String) (last_read_message_id : Nat) :
    Option Message × SQLStorage :=
  let k := get_inbox_id message_bus_id recipient_id
  let r := getNextFromInbox
    ((SQLStorage.inbox_view st.rows k).insertionSort Message.le)
    last_read_message_id
  (r.1, ⟨st.rows.filter (fun row => row.1 ≠ k) ++ r.2.map (fun m => (k, m))⟩)

/-! ## Cross-backend operation sequences -/

/-- One storage-backend operation of the cross-backend equivalence property:
`create_inbox`, `add_message_to_inbox` or `get_next_unread_message`. -/
inductive BusOp where
  | create_inbox (message_bus_id client_id : String)
  | add_message (message_bus_id client_id : String) (message : Message)
  | get_next (message_bus_id client_id : String) (cursor : Nat)
deriving DecidableEq, Repr

/-- Run a sequence of operations on the Redis backend, collecting the value
returned by every `get_next_unread_message` call. -/
def redisRun : RedisStorage → List BusOp → List (Option Message)
  | _, [] => []
  | st, op :: ops =>
    match op with
    | .create_inbox b c => redisRun (st.create_inbox b c) ops
    | .add_message b c m => redisRun (st.add_message_to_inbox b c m) ops
    | .get_next b c cur =>
      let r := st.get_next_unread_message b c cur
      r.1 :: redisRun r.2 ops

/-- Run a sequence of operations on the in-memory backend. -/
def memRun : InMemoryStorage → List BusOp → List (Option Message)
  | _, [] => []
  | st, op :: ops =>
    match op with
    | .create_inbox b c => memRun (st.create_inbox b c) ops
    | .add_message b c m => memRun (st.add_message_to_inbox b c m) ops
    | .get_next b c cur =>
      let r := st.get_next_unread_message b c cur
      r.1 :: memRun r.2 ops

/-- Run a sequence of operations on the file backend. -/
def fileRun : FileBasedStorage → List BusOp → List (Option Message)
  | _, [] => []
  | st, op :: ops =>
    match op with
    | .create_inbox b c => fileRun (st.create_inbox b c) ops
    | .add_message b c m => fileRun (st.add_message_to_inbox b c m) ops
    | .get_next b c cur =>
      let r := st.get_next_unread_message b c cur
      r.1 :: fileRun r.2 ops

/-- Run a sequence of operations on the SQL backend. -/
def sqlRun : SQLStorage → List BusOp → List (Option Message)
  | _, [] => []
  | st, op :: ops =>
    match op with
    | .create_inbox b c => sqlRun (st.create_inbox b c) ops
    | .add_message b c m => sqlRun (st.add_message_to_inbox b c m) ops
    | .get_next b c cur =>
      let r := st.get_next_unread_message b c cur
      r.1 :: sqlRun r.2 ops

/-- Simulation relation between the in-memory backend and the Redis backend:
every Redis sorted set is sorted and holds the same messages as the matching
in-memory inbox. -/
def MemRedisRel (ms : InMemoryStorage) (rs : RedisStorage) : Prop :=
  ∀ k, ms.inboxes k ~ rs.zsets k ∧ SortedInbox (rs.zsets k)

/-- Simulation relation between the file backend and the Redis backend. -/
def FileRedisRel (fs : FileBasedStorage) (rs : RedisStorage) : Prop :=
  ∀ k, fs.files k ~ rs.zsets k ∧ SortedInbox (rs.zsets k)

/-- Simulation relation between the SQL backend and the Redis backend: the
view of every inbox holds the same messages as the matching sorted set. -/
def SqlRedisRel (ss : SQLStorage) (rs : RedisStorage) : Prop :=
  ∀ k, SQLStorage.inbox_view ss.rows k ~ rs.zsets k ∧ SortedInbox (rs.zsets k)

/-! ## Gemstone id generator

Modelled from the spec: `rustic_ai.messagebus.utils.GemstoneGenerator` is
absent from the sources.  Section 3 fixes the id as a 64-bit integer composed
most-significant-first of the priority ordinal, the millisecond timestamp, the
machine id and an intra-millisecond sequence counter, with numeric ordering
equal to the lexicographic ordering of those fields; the generator keeps a
mutex-protected last-issued id, and when the sequence counter of a millisecond
is exhausted it stalls until the clock advances.  The field widths below give
the timestamp 41 bits, the machine id 10 bits and the sequence counter 10
bits; the claims settled here do not depend on the exact split. -/

/-- Bit width of the intra-millisecond sequence counter field. -/
def sequenceBits : Nat := 10

/-- Bit width of the machine-id field. -/
def machineBits : Nat := 10

/-- Bit width of the millisecond-timestamp field. -/
def timestampBits : Nat := 41

/-- Pack (priority ordinal, timestamp, machine id, sequence) into one integer,
most significant field first. -/
def packId (priority timestamp machine sequence : Nat) : Nat :=
  ((priority * 2 ^ timestampBits + timestamp) * 2 ^ machineBits + machine)
      * 2 ^ sequenceBits
    + sequence

/-- Modelled from the spec: the mutable state of one generator instance — the
machine id fixed at construction and the (timestamp, sequence) of the last
issued id. -/
structure GemstoneGenerator where
  machine_id : Nat
  last_timestamp : Nat
  sequence : Nat
deriving DecidableEq, Repr

/-- A generator freshly constructed with the given machine id. -/
def GemstoneGenerator.mk0 (machine_id : Nat) : GemstoneGenerator :=
  ⟨machine_id, 0, 0⟩

/-- Modelled from the spec: `get_id(priority)` at clock reading `now`.  Within
one millisecond the sequence counter increments; when it is exhausted the
generator stalls until the clock advances (modelled by issuing the id at the
next millisecond); a later millisecond restarts the counter at zero. -/
def GemstoneGenerator.get_id (g : GemstoneGenerator) (priority : Priority)
    (now : Nat) : Nat × GemstoneGenerator :=
  let t := max now g.last_timestamp
  if t = g.last_timestamp then
    if g.sequence + 1 < 2 ^ sequenceBits then
      (packId priority.ordinal t g.machine_id (g.sequence + 1),
        ⟨g.machine_id, t, g.sequence + 1⟩)
    else
      (packId priority.ordinal (t + 1) g.machine_id 0, ⟨g.machine_id, t + 1, 0⟩)
  else
    (packId priority.ordinal t g.machine_id 0, ⟨g.machine_id, t, 0⟩)

/-- Run a generator over a list of calls, each a (priority, clock reading)
pair, returning every id tagged with the priority it was requested with. -/
def genRunTagged (g : GemstoneGenerator) :
    List (Priority × Nat) → List (Priority × Nat)
  | [] => []
  | (p, now) :: calls =>
    let r := g.get_id p now
    (p, r.1) :: genRunTagged r.2 calls

/-- The ids returned by a sequence of `get_id` calls, in call order. -/
def genRun (g : GemstoneGenerator) (calls : List (Priority × Nat)) : List Nat :=
  (genRunTagged g calls).map Prod.snd

/-- Python dictionary lookup `d.get(k)` over an association list in insertion
order: the value of the first matching key, if any. -/
def alookup {α : Type} : List (String × α) → String → Option α
  | [], _ => none
  | (k2, v) :: rest, k => if k2 = k then some v else alookup rest k

/-! ## Storage backend factory

Embedding of `rustic_ai/messagebus/storage/backend_factory.py`.  Python object
identity is modelled by numbering instances as they are constructed: the
factory state holds the cache dictionary (store key to instance number) and
the next fresh instance number; two results name the same backend instance
exactly when they carry the same number. -/

/-- The error raised by `StorageBackendFactory.from_config`: `ValueError` for
an unknown storage type (raised by the `StorageBackendType` enum lookup),
`KeyError` for a required configuration key that is absent. -/
inductive FactoryError where
  | valueError (message : String)
  | keyError (key : String)
deriving DecidableEq, Repr

/-- The `message_bus.storage` section of a configuration: the declared type
tag and the optional engine-specific parameters. -/
structure StorageConfig where
  type : String
  file_path : Option String := none
  connection_string : Option String := none
  fake_redis : Bool := false
deriving DecidableEq, Repr

/-- The process-wide state of `StorageBackendFactory`: the `_stores` cache
mapping store keys to instance numbers, and the next fresh instance number. -/
structure FactoryState where
  stores : List (String × Nat)
  next_instance : Nat
deriving DecidableEq, Repr

/-- An empty factory cache, as at process start. -/
def FactoryState.empty : FactoryState := ⟨[], 0⟩

/-- Look up the store key in the cache; on a miss construct a fresh instance
and record it (`if store_key not in stores: stores[store_key] = ...`). -/
def FactoryState.cached (st : FactoryState) (store_key : String) :
    Nat × FactoryState :=
  match alookup st.stores store_key with
  | some inst => (inst, st)
  | none =>
    (st.next_instance,
      ⟨st.stores ++ [(store_key, st.next_instance)], st.next_instance + 1⟩)

/-- `StorageBackendFactory.from_config`.  The type tag is resolved first (an
unknown tag raises `ValueError`); each branch then reads its required
parameters (a missing key raises `KeyError`).  The MEMORY, FILE and REDIS
branches go through the cache — the FILE branch caches under a key prefixed
`MEMORY:`, exactly as the source does — while the SQL branch constructs and
returns a fresh instance on every call without touching the cache. -/
def StorageBackendFactory.from_config (cfg : StorageConfig) (st : FactoryState) :
    Except FactoryError (Nat × FactoryState) :=
  if cfg.type = "MEMORY" then
    .ok (st.cached "MEMORY")
  else if cfg.type = "FILE" then
    match cfg.file_path with
    | none => .error (.keyError "file_path")
    | some file_path => .ok (st.cached ("MEMORY:" ++ file_path))
  else if cfg.type = "SQL" then
    match cfg.connection_string with
    | none => .error (.keyError "connection_string")
    | some _ => .ok (st.next_instance, ⟨st.stores, st.next_instance + 1⟩)
  else if cfg.type = "REDIS" then
    match cfg.connection_string with
    | none => .error (.keyError "connection_string")
    | some conn => .ok (st.cached ("REDIS:" ++ conn))
  else
    .error (.valueError "Unknown storage backend type")

/-- Well-formedness of the factory cache: distinct keys name distinct
instances, and every cached instance number is below the fresh counter.  Holds
for the empty cache and is preserved by `from_config`. -/
def FactoryState.WF (st : FactoryState) : Prop :=
  st.stores.Pairwise (fun a b => a.1 ≠ b.1 ∧ a.2 ≠ b.2) ∧
    ∀ e ∈ st.stores, e.2 < st.next_instance

/-! ## Ensemble entities

Embedding of `rustic_ai/ensemble/ensemble.py`.  Python dictionaries are
represented as association lists in insertion order.  The construction-time
validation of `__post_init__` is not modelled; no claim concerns it. -/

/-- `MemberType`: the type of an ensemble member. -/
inductive MemberType where
  | bot
  | human
deriving DecidableEq, Repr

/-- `MemberCommsType`: the communication type of an ensemble member. -/
inductive MemberCommsType where
  | http
  | websocket
  | webhook
deriving DecidableEq, Repr

/-- `EnsembleMember`: one member record. -/
structure EnsembleMember where
  id : String
  name : String
  member_type : MemberType
  comms_type : MemberCommsType
  endpoint : Option String := none
  is_active : Bool := true
deriving DecidableEq, Repr

/-- `Ensemble`: an ensemble record; `members` is the member dictionary keyed
by member id, in insertion order. -/
structure Ensemble where
  id : String
  name : String
  members : List (String × EnsembleMember)
deriving DecidableEq, Repr

/-- Python dictionary assignment `d[k] = v`: replace the value in place when
the key exists, append the binding otherwise. -/
def assocSet {α : Type} : List (String × α) → String → α → List (String × α)
  | [], k, v => [(k, v)]
  | (k2, v2) :: rest, k, v =>
    if k2 = k then (k, v) :: rest else (k2, v2) :: assocSet rest k v

/-- Python `old.update(new)` on dictionaries: values of keys present in `new`
are overwritten in place, keys only in `new` are appended in their order. -/
def dictUpdate {α : Type} (old new : List (String × α)) : List (String × α) :=
  old.map (fun kv =>
    match alookup new kv.1 with
    | some v => (kv.1, v)
    | none => kv)
  ++ new.filter (fun kv => (alookup old kv.1).isNone)

/-- The errors raised by the ensemble storages. -/
inductive EnsembleStorageError where
  | ensembleNotFound
  | ensembleIdAlreadyExists
deriving DecidableEq, Repr

/-! ## In-memory ensemble storage

Embedding of `rustic_ai/ensemble/storage/in_memory_storage.py` (the
operations the update-divergence claim needs). -/

/-- `InMemoryEnsembleStorage`: ensembles held in a dictionary keyed by id. -/
structure InMemoryEnsembleStorage where
  ensembles : List (String × Ensemble)
deriving DecidableEq, Repr

/-- An in-memory ensemble storage with no ensembles. -/
def InMemoryEnsembleStorage.empty : InMemoryEnsembleStorage := ⟨[]⟩

/-- `InMemoryEnsembleStorage.create_ensemble`: store the ensemble under its
id; an existing id raises `EnsembleIdAlreadyExists`. -/
def InMemoryEnsembleStorage.create_ensemble (st : InMemoryEnsembleStorage)
    (e : Ensemble) : Except EnsembleStorageError (String × InMemoryEnsembleStorage) :=
  if (alookup st.ensembles e.id).isSome then .error .ensembleIdAlreadyExists
  else .ok (e.id, ⟨assocSet st.ensembles e.id e⟩)

/-- `InMemoryEnsembleStorage.get_ensemble`: look the id up; an absent id
raises `EnsembleNotFoundError`. -/
def InMemoryEnsembleStorage.get_ensemble (st : InMemoryEnsembleStorage)
    (ensemble_id : String) : Except EnsembleStorageError Ensemble :=
  match alookup st.ensembles ensemble_id with
  | some e => .ok e
  | none => .error .ensembleNotFound

/-- `InMemoryEnsembleStorage.update_ensemble`: replace the stored ensemble
wholesale (`self.ensembles[ensemble.id] = ensemble`); an absent id raises
`EnsembleNotFoundError`. -/
def InMemoryEnsembleStorage.update_ensemble (st : InMemoryEnsembleStorage)
    (e : Ensemble) : Except EnsembleStorageError InMemoryEnsembleStorage :=
  if (alookup st.ensembles e.id).isSome then .ok ⟨assocSet st.ensembles e.id e⟩
  else .error .ensembleNotFound

/-! ## Redis ensemble storage

Embedding of `rustic_ai/ensemble/storage/redis_storage.py` (the operations
the update-divergence claim needs).  Each ensemble is held in the hash at key
`ensemble:` ++ id, field `d`, as its serialization; serialization round-trips
losslessly, so the store is modelled at `Ensemble` granularity. -/

/-- The Redis key of an ensemble (`RedisEnsembleStorage._get_ensemble_key`). -/
def redis_ensemble_key (ensemble_id : String) : String :=
  "ensemble:" ++ ensemble_id

/-- `RedisEnsembleStorage`: the hashes the storage writes, keyed by
`redis_ensemble_key`. -/
structure RedisEnsembleStorage where
  hashes : List (String × Ensemble)
deriving DecidableEq, Repr

/-- A Redis ensemble storage with no ensembles. -/
def RedisEnsembleStorage.empty : RedisEnsembleStorage := ⟨[]⟩

/-- `RedisEnsembleStorage.create_ensemble`: `hget` to reject an existing id,
then `hset` of the serialized ensemble. -/
def RedisEnsembleStorage.create_ensemble (st : RedisEnsembleStorage)
    (e : Ensemble) : Except EnsembleStorageError (String × RedisEnsembleStorage) :=
  if (alookup st.hashes (redis_ensemble_key e.id)).isSome then
    .error .ensembleIdAlreadyExists
  else .ok (e.id, ⟨assocSet st.hashes (redis_ensemble_key e.id) e⟩)

/-- `RedisEnsembleStorage.get_ensemble`: `hget` and deserialize; an absent id
raises `EnsembleNotFoundError`. -/
def RedisEnsembleStorage.get_ensemble (st : RedisEnsembleStorage)
    (ensemble_id : String) : Except EnsembleStorageError Ensemble :=
  match alookup st.hashes (redis_ensemble_key ensemble_id) with
  | some e => .ok e
  | none => .error .ensembleNotFound

/-- `RedisEnsembleStorage.update_ensemble`: read the current ensemble; when it
has members, merge them with the new members by `current.members.update(...)`
— the member dictionaries are unioned, the new values winning on a shared key
— and store the incoming ensemble carrying the merged member dictionary. -/
def RedisEnsembleStorage.update_ensemble (st : RedisEnsembleStorage)
    (e : Ensemble) : Except EnsembleStorageError RedisEnsembleStorage :=
  match st.get_ensemble e.id with
  | .error err => .error err
  | .ok current =>
    let new_members :=
      if current.members ≠ [] then dictUpdate current.members e.members
      else e.members
    .ok ⟨assocSet st.hashes (redis_ensemble_key e.id)
      ⟨e.id, e.name, new_members⟩⟩

/-! ## Ensemble manager dispatch

Embedding of the attribute lookup `EnsembleManager.get_ensembles` performs on
its configured storage.  Python resolves `self.ensemble_storage.get_ensembles`
dynamically: the call raises `AttributeError` unless the class of the
configured storage defines a method of that name.  The method tables below
transcribe the public methods each class defines in
`rustic_ai/ensemble/storage/`. -/

/-- The four ensemble-storage engines selectable by `EnsembleStorageFactory`. -/
inductive EnsembleStorageKind where
  | memory
  | file
  | sql
  | redis
deriving DecidableEq, Repr

/-- The abstract methods declared on the `EnsembleStorage` ABC
(`rustic_ai/ensemble/storage/storage.py`). -/
def ensemble_interface_methods : List String :=
  ["create_ensemble", "get_ensemble", "update_ensemble", "delete_ensemble",
    "list_ensemble_ids", "add_ensemble_member", "remove_ensemble_member",
    "clean_up"]

/-- The public methods each concrete ensemble-storage class defines, read off
`in_memory_storage.py`, `file_based_storage.py`, `sql_storage.py` and
`redis_storage.py`. -/
def ensemble_storage_methods : EnsembleStorageKind → List String
  | .memory =>
    ["create_ensemble", "get_ensemble", "update_ensemble", "delete_ensemble",
      "add_ensemble_member", "remove_ensemble_member", "list_ensemble_ids",
      "clean_up"]
  | .file =>
    ["create_ensemble", "get_ensemble", "update_ensemble", "delete_ensemble",
      "add_ensemble_member", "remove_ensemble_member", "list_ensemble_ids",
      "clean_up"]
  | .sql =>
    ["create_ensemble", "get_ensemble", "update_ensemble", "delete_ensemble",
      "get_ensembles", "get_ensemble_ids", "add_ensemble_member",
      "remove_ensemble_member", "clean_up", "close_connection"]
  | .redis =>
    ["create_ensemble", "get_ensemble", "update_ensemble", "list_ensemble_ids",
      "delete_ensemble", "add_ensemble_member", "get_ensemble_members",
      "remove_ensemble_member", "clean_up"]

/-- The `AttributeError` a failed Python attribute lookup raises. -/
inductive PyError where
  | attributeError (name : String)
deriving DecidableEq, Repr

/-- `EnsembleManager.get_ensembles`: an unconditional call of
`self.ensemble_storage.get_ensembles()`.  `stored` is the list the SQL
backend would return; on every class that does not define the method, the
attribute lookup raises `AttributeError` before any query runs. -/
def EnsembleManager.get_ensembles (kind : EnsembleStorageKind)
    (stored : List Ensemble) : Except PyError (List Ensemble) :=
  if "get_ensembles" ∈ ensemble_storage_methods kind then .ok stored
  else .error (.attributeError "get_ensembles")

/-! ## Order lemmas for the message sort key -/

theorem Message.key_inj : Function.Injective Message.key := by
  intro a b h
  cases a
  cases b
  simp [Message.key, Prod.ext_iff] at h
  obtain ⟨h1, h2, h3⟩ := h
  simp_all [String.ext_iff]

theorem Message.le_antisymm' {a b : Message} (h1 : Message.le a b)
    (h2 : Message.le b a) : a = b :=
  Message.key_inj (le_antisymm h1 h2)

theorem Message.le_refl' (a : Message) : Message.le a a := le_refl a.key

theorem Message.le_total' (a b : Message) : Message.le a b ∨ Message.le b a :=
  le_total a.key b.key

theorem Message.lt_iff {a b : Message} :
    Message.lt a b ↔ Message.le a b ∧ a ≠ b := by
  unfold Message.lt Message.le
  rw [lt_iff_le_and_ne]
  constructor
  · rintro ⟨h1, h2⟩
    exact ⟨h1, fun h => h2 (by rw [h])⟩
  · rintro ⟨h1, h2⟩
    exact ⟨h1, fun h => h2 (Message.key_inj h)⟩

theorem Message.lt_of_id_lt {a b : Message} (h : a.id < b.id) :
    Message.lt a b := by
  unfold Message.lt Message.key
  exact Prod.Lex.left _ _ h

theorem Message.le_of_id_lt {a b : Message} (h : a.id < b.id) :
    Message.le a b := le_of_lt (Message.lt_of_id_lt h)

theorem Message.not_le_of_id_lt {a b : Message} (h : a.id < b.id) :
    ¬ Message.le b a := not_le_of_lt (Message.lt_of_id_lt h)

theorem Message.ne_of_id_lt {a b : Message} (h : a.id < b.id) : a ≠ b := by
  intro hab
  rw [hab] at h
  exact lt_irrefl _ h

theorem Message.ne_of_lt {a b : Message} (hab : Message.lt a b) : a ≠ b :=
  fun h => absurd (h ▸ hab) (lt_irrefl _)

theorem SortedInbox.nodup {l : List Message} (h : SortedInbox l) : l.Nodup :=
  h.imp (fun hab => Message.ne_of_lt hab)

theorem SortedInbox.sorted_le {l : List Message} (h : SortedInbox l) :
    l.Sorted Message.le := h.imp (fun hab => le_of_lt hab)

/-! ## Representation lemmas for the Redis sorted-set model -/

theorem zadd_perm (l : List Message) (m : Message) (hm : m ∉ l) :
    zadd l m ~ m :: l := by
  unfold zadd
  rw [if_neg hm]
  exact l.perm_orderedInsert Message.le m

theorem zadd_sorted {l : List Message} (h : SortedInbox l) (m : Message) :
    SortedInbox (zadd l m) := by
  unfold zadd
  by_cases hm : m ∈ l
  · rw [if_pos hm]; exact h
  · rw [if_neg hm]
    have hle : (l.orderedInsert Message.le m).Sorted Message.le :=
      List.Sorted.orderedInsert m l h.sorted_le
    have hnd : (l.orderedInsert Message.le m).Nodup := by
      refine (l.perm_orderedInsert Message.le m).nodup_iff.mpr ?_
      exact List.nodup_cons.mpr ⟨hm, h.nodup⟩
    exact (hle.and hnd).imp fun hab =>
      Message.lt_iff.mpr ⟨hab.1, hab.2⟩

theorem getNextFromInbox_state_sublist (l : List Message) (c : Nat) :
    (getNextFromInbox l c).2.Sublist l := by
  induction l with
  | nil => simp [getNextFromInbox]
  | cons m rest ih =>
    unfold getNextFromInbox
    by_cases h : m.id = c
    · rw [if_pos h]
      exact ih.cons m
    · rw [if_neg h]

theorem getNextFromInbox_sorted {l : List Message} (h : SortedInbox l)
    (c : Nat) : SortedInbox (getNextFromInbox l c).2 :=
  h.sublist (getNextFromInbox_state_sublist l c)

theorem getNextFromInbox_result_mem (l : List Message) (c : Nat) :
    ∀ m, (getNextFromInbox l c).1 = some m → m ∈ (getNextFromInbox l c).2 := by
  induction l with
  | nil => intro m h; simp [getNextFromInbox] at h
  | cons x rest ih =>
    intro m h
    unfold getNextFromInbox at h ⊢
    by_cases hx : x.id = c
    · rw [if_pos hx] at h ⊢
      exact ih m h
    · rw [if_neg hx] at h ⊢
      simp only [Option.some.injEq] at h
      simp [h]

theorem getNextFromInbox_none_iff (l : List Message) (c : Nat) :
    (getNextFromInbox l c).1 = none ↔ ∀ m ∈ l, m.id = c := by
  induction l with
  | nil => simp [getNextFromInbox]
  | cons x rest ih =>
    unfold getNextFromInbox
    by_cases hx : x.id = c
    · rw [if_pos hx]
      simp only [List.mem_cons]
      constructor
      · intro h m hm
        rcases hm with rfl | hm
        · exact hx
        · exact (ih.mp h) m hm
      · intro h
        exact ih.mpr fun m hm => h m (Or.inr hm)
    · rw [if_neg hx]
      simp only [List.mem_cons]
      constructor
      · intro h
        exact absurd h (by simp)
      · intro h
        exact absurd (h x (Or.inl rfl)) hx

theorem getNextFromInbox_some_spec {l : List Message} (c : Nat)
    (hs : l.Sorted Message.le) :
    ∀ m, (getNextFromInbox l c).1 = some m →
      m ∈ l ∧ m.id ≠ c ∧ ∀ m2 ∈ l, m2.id ≠ c → Message.le m m2 := by
  induction l with
  | nil => intro m h; simp [getNextFromInbox] at h
  | cons x rest ih =>
    intro m h
    unfold getNextFromInbox at h
    rcases List.sorted_cons.mp hs with ⟨hx_le, hrest⟩
    by_cases hx : x.id = c
    · rw [if_pos hx] at h
      obtain ⟨hmem, hne, hmin⟩ := ih hrest m h
      refine ⟨List.mem_cons_of_mem x hmem, hne, ?_⟩
      intro m2 hm2 hne2
      rcases List.mem_cons.mp hm2 with rfl | hm2
      · exact absurd hx hne2
      · exact hmin m2 hm2 hne2
    · rw [if_neg hx] at h
      simp only [Option.some.injEq] at h
      subst h
      refine ⟨List.mem_cons_self x rest, hx, ?_⟩
      intro m2 hm2 _
      rcases List.mem_cons.mp hm2 with rfl | hm2
      · exact Message.le_refl' _
      · exact hx_le m2 hm2

theorem iterGets_subset (cs : List Nat) :
    ∀ l : List Message, ∀ m ∈ iterGets l cs, m ∈ l := by
  induction cs with
  | nil => intro l m hm; simp [iterGets] at hm
  | cons c cs ih =>
    intro l m hm
    unfold iterGets at hm
    rcases hr : getNextFromInbox l c with ⟨res, l2⟩
    rw [hr] at hm
    have hsub : l2.Sublist l := by
      have := getNextFromInbox_state_sublist l c
      rw [hr] at this
      exact this
    cases res with
    | none => exact hsub.mem (ih l2 m hm)
    | some m0 =>
      rcases List.mem_cons.mp hm with rfl | hm2
      · have := getNextFromInbox_result_mem l c m
        rw [hr] at this
        exact hsub.mem (this rfl)
      · exact hsub.mem (ih l2 m hm2)

theorem removeFirstMatch_eq_erase {l : List Message} {s : String} {x : Nat}
    {m : Message} (hmem : m ∈ l) (hsender : m.sender = s) (hid : m.id = x)
    (huniq : ∀ m2 ∈ l, m2.sender = s → m2.id = x → m2 = m) :
    removeFirstMatch s x l = l.erase m := by
  induction l with
  | nil => simp at hmem
  | cons y rest ih =>
    unfold removeFirstMatch
    by_cases hy : y.sender = s ∧ y.id = x
    · have hym : y = m := huniq y (List.mem_cons_self y rest) hy.1 hy.2
      rw [if_pos hy, hym, List.erase_cons_head]
    · rw [if_neg hy]
      have hym : y ≠ m := fun h => hy (h ▸ ⟨hsender, hid⟩)
      have hmem2 : m ∈ rest := by
        rcases List.mem_cons.mp hmem with h | h
        · exact absurd h.symm hym
        · exact h
      rw [List.erase_cons_tail]
      · rw [ih hmem2 (fun m2 hm2 => huniq m2 (List.mem_cons_of_mem y hm2))]
      · simp [hym]

/-! ## Claims about the Redis message-bus backend -/

/-- Claim C1: for every (sorted-set) inbox state and cursor `c`,
`get_next_unread_message` returns the lowest-ordered message currently
present whose id differs from `c`; a lowest entry whose id equals `c` is
treated as consumed and skipped until a differing entry is found (returned)
or the inbox runs empty (empty result).  In particular, after enqueuing `m1`
then `m2` with `m1.id < m2.id` into an empty inbox, stateful reads with
cursors `0`, `m1.id` and `m2.id` return `m1`, `m2` and empty, in order. -/
theorem claim_C1_get_next_unread_returns_lowest_differing
    (l : List Message) (c : Nat) (m1 m2 : Message) (bus client : String)
    (st2 : RedisStorage) (r1 r2 r3 : Option Message × RedisStorage)
    (hs : SortedInbox l) (h12 : m1.id < m2.id) (h1 : 0 < m1.id)
    (hst2 : st2 = ((RedisStorage.empty.create_inbox bus client
      ).add_message_to_inbox bus client m1).add_message_to_inbox bus client m2)
    (hr1 : r1 = st2.get_next_unread_message bus client 0)
    (hr2 : r2 = r1.2.get_next_unread_message bus client m1.id)
    (hr3 : r3 = r2.2.get_next_unread_message bus client m2.id) :
    ((getNextFromInbox l c).1 = none ↔ ∀ m ∈ l, m.id = c) ∧
    (∀ m, (getNextFromInbox l c).1 = some m →
      m ∈ l ∧ m.id ≠ c ∧ ∀ mm ∈ l, mm.id ≠ c → Message.le m mm) ∧
    (r1.1 = some m1 ∧ r2.1 = some m2 ∧ r3.1 = none) := by
  refine ⟨getNextFromInbox_none_iff l c,
    getNextFromInbox_some_spec c hs.sorted_le, ?_⟩
  subst hst2 hr1 hr2 hr3
  have hne21 : m2 ≠ m1 := Ne.symm (Message.ne_of_id_lt h12)
  have hz1 : zadd ([] : List Message) m1 = [m1] := by
    simp [zadd, List.orderedInsert]
  have hz2 : zadd [m1] m2 = [m1, m2] := by
    simp [zadd, List.orderedInsert, hne21, Message.not_le_of_id_lt h12]
  have hg1 : getNextFromInbox [m1, m2] 0 = (some m1, [m1, m2]) := by
    simp [getNextFromInbox, h1.ne']
  have hg2 : getNextFromInbox [m1, m2] m1.id = (some m2, [m2]) := by
    simp [getNextFromInbox, h12.ne']
  have hg3 : getNextFromInbox [m2] m2.id = (none, []) := by
    simp [getNextFromInbox]
  simp [RedisStorage.create_inbox, RedisStorage.add_message_to_inbox,
    RedisStorage.get_next_unread_message, RedisStorage.empty,
    hz1, hz2, hg1, hg2, hg3]

/-- Witness for claim C1 at a concrete sorted inbox and concrete messages. -/
theorem claim_C1_witness :
    SortedInbox [(⟨1, "a", "x"⟩ : Message), ⟨3, "b", "y"⟩] ∧
      (0 : Nat) < 1 ∧ (1 : Nat) < 2 ∧
      ((getNextFromInbox [(⟨1, "a", "x"⟩ : Message), ⟨3, "b", "y"⟩] 3).1 = none ↔
        ∀ m ∈ [(⟨1, "a", "x"⟩ : Message), ⟨3, "b", "y"⟩], m.id = 3) :=
  ⟨by decide, by decide, by decide,
    (claim_C1_get_next_unread_returns_lowest_differing
      [⟨1, "a", "x"⟩, ⟨3, "b", "y"⟩] 3 ⟨1, "s", "hi"⟩ ⟨2, "s", "yo"⟩
      "bus1" "c1" _ _ _ _ (by decide) (by decide) (by decide)
      rfl rfl rfl rfl).1⟩

/-- Claim C7: after `remove_inbox(b, c)` every message queued for that inbox
is deleted, reads return empty (and leave the inbox empty), and a read
returns a message again once one is added. -/
theorem claim_C7_remove_inbox_empties_inbox
    (st st2 : RedisStorage) (bus client : String) (cursor : Nat) (m : Message)
    (hm : m.id ≠ cursor)
    (hst2 : st2 = st.remove_inbox bus client) :
    st2.zsets (get_inbox_id bus client) = [] ∧
    (st2.get_next_unread_message bus client cursor).1 = none ∧
    ((st2.get_next_unread_message bus client cursor).2).zsets
      (get_inbox_id bus client) = [] ∧
    ((st2.add_message_to_inbox bus client m).get_next_unread_message
      bus client cursor).1 = some m := by
  subst hst2
  have hz : zadd ([] : List Message) m = [m] := by
    simp [zadd, List.orderedInsert]
  refine ⟨?_, ?_, ?_, ?_⟩
  · simp [RedisStorage.remove_inbox]
  · simp [RedisStorage.remove_inbox, RedisStorage.get_next_unread_message,
      getNextFromInbox]
  · simp [RedisStorage.remove_inbox, RedisStorage.get_next_unread_message,
      getNextFromInbox]
  · simp [RedisStorage.remove_inbox, RedisStorage.add_message_to_inbox,
      RedisStorage.get_next_unread_message, hz, getNextFromInbox, hm]

/-- Witness for claim C7 at a concrete nonempty state. -/
theorem claim_C7_witness :
    (5 : Nat) ≠ 0 ∧
      ((RedisStorage.empty.add_message_to_inbox "bus1" "c1"
          ⟨5, "alice", "hi"⟩).remove_inbox "bus1" "c1").zsets
        (get_inbox_id "bus1" "c1") = [] :=
  ⟨by decide,
    (claim_C7_remove_inbox_empties_inbox
      (RedisStorage.empty.add_message_to_inbox "bus1" "c1" ⟨5, "alice", "hi"⟩)
      _ "bus1" "c1" 0 ⟨5, "alice", "hi"⟩ (by decide) rfl).1⟩

/-- Claim C8: the Redis read is not read-only — the leading entries whose id
equals the cursor are deleted from the sorted set (the state left behind is
exactly the inbox with that leading run dropped), every skipped entry is gone
from the remaining inbox, and no sequence of later reads, with any cursors,
can return a skipped entry. -/
theorem claim_C8_get_next_deletes_skipped
    (l : List Message) (c : Nat) (hs : SortedInbox l) :
    (getNextFromInbox l c).2 = l.dropWhile (fun m => m.id == c) ∧
    (∀ m ∈ l.takeWhile (fun m => m.id == c), m ∉ (getNextFromInbox l c).2) ∧
    (∀ cs : List Nat, ∀ m ∈ l.takeWhile (fun m => m.id == c),
      m ∉ iterGets (getNextFromInbox l c).2 cs) := by
  have hdrop : (getNextFromInbox l c).2 = l.dropWhile (fun m => m.id == c) := by
    induction l with
    | nil => simp [getNextFromInbox]
    | cons x rest ih =>
      unfold getNextFromInbox
      by_cases hx : x.id = c
      · rw [if_pos hx, List.dropWhile_cons_of_pos (by simp [hx])]
        exact ih (List.sorted_cons.mp hs).2
      · rw [if_neg hx, List.dropWhile_cons_of_neg (by simp [hx])]
  have hdisj : ∀ m ∈ l.takeWhile (fun m => m.id == c),
      m ∉ l.dropWhile (fun m => m.id == c) := by
    have hnd : l.Nodup := hs.nodup
    rw [← @List.takeWhile_append_dropWhile _ (fun m => m.id == c) l] at hnd
    intro m hmt hmd
    exact (List.disjoint_of_nodup_append hnd) hmt hmd
  refine ⟨hdrop, ?_, ?_⟩
  · rw [hdrop]; exact hdisj
  · intro cs m hmt hmiter
    exact hdisj m hmt (hdrop ▸ iterGets_subset cs _ m hmiter)

/-- Witness for claim C8 at a concrete sorted inbox. -/
theorem claim_C8_witness :
    SortedInbox [(⟨5, "a", "x"⟩ : Message), ⟨7, "b", "y"⟩] ∧
      (getNextFromInbox [(⟨5, "a", "x"⟩ : Message), ⟨7, "b", "y"⟩] 5).2 =
        [(⟨5, "a", "x"⟩ : Message),
          ⟨7, "b", "y"⟩].dropWhile (fun m => m.id == 5) :=
  ⟨by decide,
    (claim_C8_get_next_deletes_skipped [⟨5, "a", "x"⟩, ⟨7, "b", "y"⟩] 5
      (by decide)).1⟩

/-- Claim C6: `remove_received_message(bus, s, [r], X)` removes exactly the
message matched by sender `s` and id `X` from the inbox of `r` (when that
match is unique), touches no other inbox, and when that message was the only
entry a subsequent read with cursor 0 returns empty. -/
theorem claim_C6_remove_received_message_removes_match
    (st st2 : RedisStorage) (bus s r : String) (x : Nat) (m : Message)
    (hmem : m ∈ st.zsets (get_inbox_id bus r))
    (hsender : m.sender = s) (hid : m.id = x)
    (huniq : ∀ m2 ∈ st.zsets (get_inbox_id bus r),
      m2.sender = s → m2.id = x → m2 = m)
    (hst2 : st2 = st.remove_received_message bus s [r] x) :
    st2.zsets (get_inbox_id bus r) = (st.zsets (get_inbox_id bus r)).erase m ∧
    (∀ k, k ≠ get_inbox_id bus r → st2.zsets k = st.zsets k) ∧
    (st.zsets (get_inbox_id bus r) = [m] →
      (st2.get_next_unread_message bus r 0).1 = none) := by
  subst hst2
  have hfold : (st.remove_received_message bus s [r] x).zsets =
      fun k => if k = get_inbox_id bus r then
        removeFirstMatch s x (st.zsets k) else st.zsets k := by
    simp [RedisStorage.remove_received_message]
  refine ⟨?_, ?_, ?_⟩
  · rw [hfold]
    simp only [if_pos rfl]
    exact removeFirstMatch_eq_erase hmem hsender hid huniq
  · intro k hk
    rw [hfold]
    simp [hk]
  · intro honly
    have : removeFirstMatch s x (st.zsets (get_inbox_id bus r)) = [] := by
      rw [honly]
      unfold removeFirstMatch
      rw [if_pos ⟨hsender, hid⟩]
    simp [RedisStorage.get_next_unread_message, hfold, this, getNextFromInbox]

/-- Witness for claim C6 at a concrete one-message inbox. -/
theorem claim_C6_witness :
    ((⟨5, "alice", "hi"⟩ : Message) ∈
        (RedisStorage.empty.add_message_to_inbox "bus1" "r1"
          ⟨5, "alice", "hi"⟩).zsets (get_inbox_id "bus1" "r1")) ∧
      ((RedisStorage.empty.add_message_to_inbox "bus1" "r1"
          ⟨5, "alice", "hi"⟩).remove_received_message "bus1" "alice" ["r1"]
          5).zsets (get_inbox_id "bus1" "r1") =
        ((RedisStorage.empty.add_message_to_inbox "bus1" "r1"
          ⟨5, "alice", "hi"⟩).zsets (get_inbox_id "bus1" "r1")).erase
          ⟨5, "alice", "hi"⟩ :=
  ⟨by decide,
    (claim_C6_remove_received_message_removes_match
      (RedisStorage.empty.add_message_to_inbox "bus1" "r1" ⟨5, "alice", "hi"⟩)
      _ "bus1" "alice" "r1" 5 ⟨5, "alice", "hi"⟩ (by decide) (by decide)
      (by decide) (by decide) rfl).1⟩


/-! ## Cross-backend simulation lemmas -/

theorem sort_eq_of_perm {l r : List Message} (hp : l ~ r) (hr : SortedInbox r) :
    l.insertionSort Message.le = r :=
  List.eq_of_perm_of_sorted ((l.perm_insertionSort Message.le).trans hp)
    (List.sorted_insertionSort Message.le l) hr.sorted_le

theorem memAdd_rel {lm lr : List Message} (hperm : lm ~ lr)
    (hsort : SortedInbox lr) (m : Message) :
    (if m ∈ lm then lm else lm ++ [m]) ~ zadd lr m ∧ SortedInbox (zadd lr m) := by
  refine ⟨?_, zadd_sorted hsort m⟩
  by_cases hmem : m ∈ lm
  · have hmem2 : m ∈ lr := hperm.mem_iff.mp hmem
    rw [if_pos hmem]
    unfold zadd
    rw [if_pos hmem2]
    exact hperm
  · have hmem2 : m ∉ lr := fun hc => hmem (hperm.mem_iff.mpr hc)
    rw [if_neg hmem]
    exact (List.perm_append_singleton m lm).trans
      ((hperm.cons m).trans (zadd_perm lr m hmem2).symm)

theorem fileAdd_rel {lf lr : List Message} (hperm : lf ~ lr)
    (hsort : SortedInbox lr) (m : Message) :
    (if m ∈ lf then lf else m :: lf) ~ zadd lr m ∧ SortedInbox (zadd lr m) := by
  refine ⟨?_, zadd_sorted hsort m⟩
  by_cases hmem : m ∈ lf
  · have hmem2 : m ∈ lr := hperm.mem_iff.mp hmem
    rw [if_pos hmem]
    unfold zadd
    rw [if_pos hmem2]
    exact hperm
  · have hmem2 : m ∉ lr := fun hc => hmem (hperm.mem_iff.mpr hc)
    rw [if_neg hmem]
    exact (hperm.cons m).trans (zadd_perm lr m hmem2).symm

theorem memRedis_run (ops : List BusOp) :
    ∀ ms rs, MemRedisRel ms rs → memRun ms ops = redisRun rs ops := by
  induction ops with
  | nil => intro ms rs _; rfl
  | cons op ops ih =>
    intro ms rs h
    cases op with
    | create_inbox b c =>
      exact ih _ _ h
    | add_message b c m =>
      refine ih _ _ ?_
      intro k
      by_cases hk : k = get_inbox_id b c
      · subst hk
        obtain ⟨hperm, hsort⟩ := h (get_inbox_id b c)
        simp only [InMemoryStorage.add_message_to_inbox,
          RedisStorage.add_message_to_inbox, if_pos rfl]
        exact memAdd_rel hperm hsort m
      · simp only [InMemoryStorage.add_message_to_inbox,
          RedisStorage.add_message_to_inbox, if_neg hk]
        exact h k
    | get_next b c cur =>
      obtain ⟨hperm, hsort⟩ := h (get_inbox_id b c)
      have hsorteq : (ms.inboxes (get_inbox_id b c)).insertionSort Message.le =
          rs.zsets (get_inbox_id b c) := sort_eq_of_perm hperm hsort
      simp only [memRun, redisRun, InMemoryStorage.get_next_unread_message,
        RedisStorage.get_next_unread_message, hsorteq]
      congr 1
      refine ih _ _ ?_
      intro k
      by_cases hk : k = get_inbox_id b c
      · subst hk
        simp only [if_pos rfl]
        exact ⟨List.Perm.refl _, getNextFromInbox_sorted hsort cur⟩
      · simp only [if_neg hk]
        exact h k

theorem fileRedis_run (ops : List BusOp) :
    ∀ fs rs, FileRedisRel fs rs → fileRun fs ops = redisRun rs ops := by
  induction ops with
  | nil => intro fs rs _; rfl
  | cons op ops ih =>
    intro fs rs h
    cases op with
    | create_inbox b c =>
      exact ih _ _ h
    | add_message b c m =>
      refine ih _ _ ?_
      intro k
      by_cases hk : k = get_inbox_id b c
      · subst hk
        obtain ⟨hperm, hsort⟩ := h (get_inbox_id b c)
        simp only [FileBasedStorage.add_message_to_inbox,
          RedisStorage.add_message_to_inbox, if_pos rfl]
        exact fileAdd_rel hperm hsort m
      · simp only [FileBasedStorage.add_message_to_inbox,
          RedisStorage.add_message_to_inbox, if_neg hk]
        exact h k
    | get_next b c cur =>
      obtain ⟨hperm, hsort⟩ := h (get_inbox_id b c)
      have hsorteq : (fs.files (get_inbox_id b c)).insertionSort Message.le =
          rs.zsets (get_inbox_id b c) := sort_eq_of_perm hperm hsort
      simp only [fileRun, redisRun, FileBasedStorage.get_next_unread_message,
        RedisStorage.get_next_unread_message, hsorteq]
      congr 1
      refine ih _ _ ?_
      intro k
      by_cases hk : k = get_inbox_id b c
      · subst hk
        simp only [if_pos rfl]
        exact ⟨List.Perm.refl _, getNextFromInbox_sorted hsort cur⟩
      · simp only [if_neg hk]
        exact h k

theorem sql_view_append (rows1 rows2 : List (String × Message)) (k : String) :
    SQLStorage.inbox_view (rows1 ++ rows2) k =
      SQLStorage.inbox_view rows1 k ++ SQLStorage.inbox_view rows2 k := by
  simp [SQLStorage.inbox_view, List.filter_append]

theorem sql_view_mem (rows : List (String × Message)) (k : String)
    (m : Message) : (k, m) ∈ rows ↔ m ∈ SQLStorage.inbox_view rows k := by
  unfold SQLStorage.inbox_view
  rw [List.mem_map]
  constructor
  · intro hm
    exact ⟨(k, m), List.mem_filter.mpr ⟨hm, by simp⟩, rfl⟩
  · rintro ⟨⟨k2, m2⟩, hmem, rfl⟩
    have h2 := List.mem_filter.mp hmem
    have hk2 : k2 = k := by simpa using h2.2
    subst hk2
    exact h2.1

theorem sql_view_filter_ne (rows : List (String × Message)) (k : String) :
    SQLStorage.inbox_view (rows.filter (fun row => row.1 ≠ k)) k = [] := by
  unfold SQLStorage.inbox_view
  rw [List.filter_filter, List.map_eq_nil, List.filter_eq_nil]
  intro row _
  by_cases hr : row.1 = k <;> simp [hr]

theorem sql_view_filter_other (rows : List (String × Message)) (k k2 : String)
    (hk : k2 ≠ k) :
    SQLStorage.inbox_view (rows.filter (fun row => row.1 ≠ k)) k2 =
      SQLStorage.inbox_view rows k2 := by
  unfold SQLStorage.inbox_view
  rw [List.filter_filter]
  congr 1
  apply List.filter_congr
  intro row _
  by_cases hr : row.1 = k2
  · simp [hr, hk]
  · simp [hr]

theorem sql_view_map_self (l : List Message) (k : String) :
    SQLStorage.inbox_view (l.map (fun m => (k, m))) k = l := by
  induction l with
  | nil => simp [SQLStorage.inbox_view]
  | cons m rest ih =>
    simpa [SQLStorage.inbox_view, List.filter_cons] using ih

theorem sql_view_map_other (l : List Message) (k k2 : String) (hk : k2 ≠ k) :
    SQLStorage.inbox_view (l.map (fun m => (k, m))) k2 = [] := by
  induction l with
  | nil => simp [SQLStorage.inbox_view]
  | cons m rest ih =>
    simpa [SQLStorage.inbox_view, List.filter_cons, Ne.symm hk] using ih

theorem sqlRedis_run (ops : List BusOp) :
    ∀ ss rs, SqlRedisRel ss rs → sqlRun ss ops = redisRun rs ops := by
  induction ops with
  | nil => intro ss rs _; rfl
  | cons op ops ih =>
    intro ss rs h
    cases op with
    | create_inbox b c =>
      exact ih _ _ h
    | add_message b c m =>
      refine ih _ _ ?_
      intro k
      simp only [SQLStorage.add_message_to_inbox]
      by_cases hmem : (get_inbox_id b c, m) ∈ ss.rows
      · rw [if_pos hmem]
        simp only [RedisStorage.add_message_to_inbox]
        by_cases hk : k = get_inbox_id b c
        · subst hk
          obtain ⟨hperm, hsort⟩ := h (get_inbox_id b c)
          have hmem2 : m ∈ rs.zsets (get_inbox_id b c) :=
            hperm.mem_iff.mp ((sql_view_mem ss.rows _ m).mp hmem)
          rw [if_pos rfl]
          have hz : zadd (rs.zsets (get_inbox_id b c)) m =
              rs.zsets (get_inbox_id b c) := by
            unfold zadd; rw [if_pos hmem2]
          rw [hz]
          exact ⟨hperm, hsort⟩
        · rw [if_neg hk]
          exact h k
      · rw [if_neg hmem]
        simp only [RedisStorage.add_message_to_inbox]
        by_cases hk : k = get_inbox_id b c
        · subst hk
          obtain ⟨hperm, hsort⟩ := h (get_inbox_id b c)
          have hview : m ∉ SQLStorage.inbox_view ss.rows (get_inbox_id b c) :=
            fun hc => hmem ((sql_view_mem ss.rows _ m).mpr hc)
          have hmem2 : m ∉ rs.zsets (get_inbox_id b c) :=
            fun hc => hview (hperm.mem_iff.mpr hc)
          rw [if_pos rfl]
          constructor
          · rw [show [(get_inbox_id b c, m)] =
                List.map (fun m2 => (get_inbox_id b c, m2)) [m] by simp,
              sql_view_append, sql_view_map_self]
            exact (List.perm_append_singleton m _).trans
              ((hperm.cons m).trans
                (zadd_perm (rs.zsets (get_inbox_id b c)) m hmem2).symm)
          · exact zadd_sorted hsort m
        · rw [if_neg hk]
          rw [show [(get_inbox_id b c, m)] =
              List.map (fun m2 => (get_inbox_id b c, m2)) [m] by simp,
            sql_view_append, sql_view_map_other [m] _ k hk, List.append_nil]
          exact h k
    | get_next b c cur =>
      obtain ⟨hperm, hsort⟩ := h (get_inbox_id b c)
      have hsorteq : (SQLStorage.inbox_view ss.rows
          (get_inbox_id b c)).insertionSort Message.le =
          rs.zsets (get_inbox_id b c) := sort_eq_of_perm hperm hsort
      simp only [sqlRun, redisRun, SQLStorage.get_next_unread_message,
        RedisStorage.get_next_unread_message, hsorteq]
      congr 1
      refine ih _ _ ?_
      intro k
      by_cases hk : k = get_inbox_id b c
      · subst hk
        simp only [if_pos rfl]
        rw [sql_view_append, sql_view_filter_ne, sql_view_map_self,
          List.nil_append]
        exact ⟨List.Perm.refl _, getNextFromInbox_sorted hsort cur⟩
      · simp only [if_neg hk]
        rw [sql_view_append, sql_view_filter_other _ _ _ hk,
          sql_view_map_other _ _ _ hk, List.append_nil]
        exact h k

/-- Claim C2: the same operation sequence of `create_inbox`,
`add_message_to_inbox` and `get_next_unread_message` calls, applied
independently to each of the four backend implementations starting from an
empty store, returns the identical sequence of messages from the
`get_next_unread_message` calls on all four. -/
theorem claim_C2_cross_backend_equivalence (ops : List BusOp) :
    memRun InMemoryStorage.empty ops = redisRun RedisStorage.empty ops ∧
    fileRun FileBasedStorage.empty ops = redisRun RedisStorage.empty ops ∧
    sqlRun SQLStorage.empty ops = redisRun RedisStorage.empty ops := by
  refine ⟨memRedis_run ops _ _ ?_, fileRedis_run ops _ _ ?_,
    sqlRedis_run ops _ _ ?_⟩
  · intro k
    exact ⟨List.Perm.refl _, List.sorted_nil⟩
  · intro k
    exact ⟨List.Perm.refl _, List.sorted_nil⟩
  · intro k
    exact ⟨List.Perm.refl _, List.sorted_nil⟩



/-! ## Gemstone id generator lemmas -/

theorem pack2_lt {B a1 a2 b1 b2 : Nat} (hb1 : b1 < B)
    (h : a1 < a2 ∨ (a1 = a2 ∧ b1 < b2)) : a1 * B + b1 < a2 * B + b2 := by
  rcases h with h | ⟨rfl, h⟩
  · calc a1 * B + b1 < a1 * B + B := by omega
      _ = (a1 + 1) * B := by ring
      _ ≤ a2 * B := Nat.mul_le_mul_right B h
      _ ≤ a2 * B + b2 := Nat.le_add_right _ _
  · omega

theorem pack2_inj {B a1 a2 b1 b2 : Nat} (hb1 : b1 < B) (hb2 : b2 < B)
    (h : a1 * B + b1 = a2 * B + b2) : a1 = a2 ∧ b1 = b2 := by
  have ha : a1 = a2 := by
    by_contra hne
    rcases Nat.lt_or_ge a1 a2 with hlt | hge
    · have := @pack2_lt B a1 a2 b1 b2 hb1 (Or.inl hlt)
      omega
    · have hgt : a2 < a1 := by omega
      have := @pack2_lt B a2 a1 b2 b1 hb2 (Or.inl hgt)
      omega
  subst ha
  exact ⟨rfl, by omega⟩

theorem packId_mono (p mach : Nat) (hmach : mach < 2 ^ machineBits)
    {t1 s1 t2 s2 : Nat} (hs1 : s1 < 2 ^ sequenceBits)
    (hlex : t1 < t2 ∨ (t1 = t2 ∧ s1 < s2)) :
    packId p t1 mach s1 < packId p t2 mach s2 := by
  unfold packId
  apply pack2_lt hs1
  rcases hlex with h | ⟨rfl, h⟩
  · left
    apply pack2_lt hmach
    left
    omega
  · right
    exact ⟨rfl, h⟩

theorem packId_fields_eq {p1 p2 t1 t2 mach s1 s2 : Nat}
    (ht1 : t1 < 2 ^ timestampBits) (ht2 : t2 < 2 ^ timestampBits)
    (hmach : mach < 2 ^ machineBits)
    (hs1 : s1 < 2 ^ sequenceBits) (hs2 : s2 < 2 ^ sequenceBits)
    (h : packId p1 t1 mach s1 = packId p2 t2 mach s2) :
    p1 = p2 ∧ t1 = t2 ∧ s1 = s2 := by
  unfold packId at h
  obtain ⟨h1, hs⟩ := pack2_inj hs1 hs2 h
  obtain ⟨h2, -⟩ := pack2_inj hmach hmach h1
  obtain ⟨hp, ht⟩ := pack2_inj ht1 ht2 h2
  exact ⟨hp, ht, hs⟩

theorem Priority.ordinal_inj {p q : Priority} (h : p.ordinal = q.ordinal) :
    p = q := by
  cases p <;> cases q <;> simp_all [Priority.ordinal]

theorem get_id_step (g : GemstoneGenerator) (p : Priority) (now : Nat)
    (hseq : g.sequence < 2 ^ sequenceBits) :
    ((g.get_id p now).2).machine_id = g.machine_id ∧
    ((g.get_id p now).2).sequence < 2 ^ sequenceBits ∧
    (g.last_timestamp < ((g.get_id p now).2).last_timestamp ∨
      (g.last_timestamp = ((g.get_id p now).2).last_timestamp ∧
        g.sequence < ((g.get_id p now).2).sequence)) ∧
    (g.get_id p now).1 = packId p.ordinal ((g.get_id p now).2).last_timestamp
      g.machine_id ((g.get_id p now).2).sequence ∧
    ((g.get_id p now).2).last_timestamp ≤ max now g.last_timestamp + 1 := by
  unfold GemstoneGenerator.get_id
  by_cases h1 : max now g.last_timestamp = g.last_timestamp
  · rw [if_pos h1]
    by_cases h2 : g.sequence + 1 < 2 ^ sequenceBits
    · rw [if_pos h2]
      dsimp only
      refine ⟨rfl, h2, Or.inr ⟨h1.symm, by omega⟩, rfl, by omega⟩
    · rw [if_neg h2]
      dsimp only
      refine ⟨rfl, by positivity, Or.inl (by omega), rfl, by omega⟩
  · rw [if_neg h1]
    have hgt : g.last_timestamp < max now g.last_timestamp := by
      rcases Nat.le_total now g.last_timestamp with hle | hle
      · exact absurd (Nat.max_eq_right hle) h1
      · rcases Nat.lt_or_ge g.last_timestamp now with hlt | hge
        · rw [Nat.max_eq_left (by omega)]
          exact hlt
        · exact absurd (Nat.max_eq_right (by omega)) h1
    dsimp only
    refine ⟨rfl, by positivity, Or.inl hgt, rfl, by omega⟩

theorem genRunTagged_spec (calls : List (Priority × Nat)) :
    ∀ g : GemstoneGenerator,
      g.sequence < 2 ^ sequenceBits →
      g.last_timestamp + calls.length < 2 ^ timestampBits →
      (∀ pc ∈ calls, pc.2 + calls.length < 2 ^ timestampBits) →
      ∀ pr ∈ genRunTagged g calls,
        ∃ t s, pr.2 = packId pr.1.ordinal t g.machine_id s ∧
          t < 2 ^ timestampBits ∧ s < 2 ^ sequenceBits ∧
          (g.last_timestamp < t ∨ (g.last_timestamp = t ∧ g.sequence < s)) := by
  induction calls with
  | nil => intro g _ _ _ pr hpr; simp [genRunTagged] at hpr
  | cons pc calls ih =>
    rcases pc with ⟨p, now⟩
    intro g hseq ht hnows pr hpr
    obtain ⟨hmach, hseq2, hstep, hid, htop⟩ := get_id_step g p now hseq
    have hnow_head : now + (calls.length + 1) < 2 ^ timestampBits :=
      hnows (p, now) (List.mem_cons_self _ _)
    have ht2 : ((g.get_id p now).2).last_timestamp + calls.length
        < 2 ^ timestampBits := by
      rcases Nat.le_total now g.last_timestamp with hle | hle
      · rw [Nat.max_eq_right hle] at htop
        simp only [List.length_cons] at ht
        omega
      · rw [Nat.max_eq_left hle] at htop
        omega
    have htbound : ((g.get_id p now).2).last_timestamp < 2 ^ timestampBits := by
      omega
    unfold genRunTagged at hpr
    rcases List.mem_cons.mp hpr with rfl | hpr2
    · exact ⟨((g.get_id p now).2).last_timestamp, ((g.get_id p now).2).sequence,
        hid, htbound, hseq2, hstep⟩
    · have hnows2 : ∀ pc2 ∈ calls, pc2.2 + calls.length < 2 ^ timestampBits := by
        intro pc2 hpc2
        have := hnows pc2 (List.mem_cons_of_mem _ hpc2)
        simp only [List.length_cons] at this
        omega
      obtain ⟨t, s, hid2, htb, hsb, hlex⟩ := ih ((g.get_id p now).2) hseq2 ht2
        hnows2 pr hpr2
      rw [hmach] at hid2
      refine ⟨t, s, hid2, htb, hsb, ?_⟩
      rcases hstep with hstep | ⟨hstep, hstepseq⟩
      · left; omega
      · rcases hlex with hlex | ⟨hlex, hlexseq⟩
        · left; omega
        · right; omega

/-- Claim C3 fails as stated: a single generator, called first with NORMAL
priority and then with URGENT priority, returns a second id numerically
smaller than the first — the priority field occupies the most significant
bits, so ids are not strictly increasing in call order across priorities. -/
theorem claim_C3_counterexample :
    ¬ List.Chain' (· < ·)
      (genRun (GemstoneGenerator.mk0 1)
        [(Priority.normal, 5), (Priority.urgent, 6)]) := by
  have hrun : genRun (GemstoneGenerator.mk0 1)
      [(Priority.normal, 5), (Priority.urgent, 6)] =
      [packId 2 5 1 0, packId 0 6 1 0] := by decide
  rw [hrun]
  intro h
  rcases List.chain'_cons.mp h with ⟨hlt, -⟩
  have hgt : packId 0 6 1 0 < packId 2 5 1 0 := by decide
  omega

/-- Claim C3 amended: for a single generator instance with an in-range
machine id (and timestamps within the timestamp field), the N returned ids
are pairwise distinct, and the ids of any two calls sharing the same priority
are strictly increasing in call order; across different priorities the
numeric order follows the priority ordinal instead, so the full sequence need
not be increasing. -/
theorem claim_C3_amended_ids_distinct_and_increasing_per_priority
    (g : GemstoneGenerator) (calls : List (Priority × Nat))
    (hm : g.machine_id < 2 ^ machineBits)
    (hseq : g.sequence < 2 ^ sequenceBits)
    (ht : g.last_timestamp + calls.length < 2 ^ timestampBits)
    (hnows : ∀ pc ∈ calls, pc.2 + calls.length < 2 ^ timestampBits) :
    List.Pairwise (fun a b : Priority × Nat =>
      a.2 ≠ b.2 ∧ (a.1 = b.1 → a.2 < b.2)) (genRunTagged g calls) := by
  induction calls generalizing g with
  | nil => exact List.Pairwise.nil
  | cons pc calls ih =>
    rcases pc with ⟨p, now⟩
    obtain ⟨hmach, hseq2, hstep, hid, htop⟩ := get_id_step g p now hseq
    have hnow_head : now + (calls.length + 1) < 2 ^ timestampBits :=
      hnows (p, now) (List.mem_cons_self _ _)
    have ht2 : ((g.get_id p now).2).last_timestamp + calls.length
        < 2 ^ timestampBits := by
      rcases Nat.le_total now g.last_timestamp with hle | hle
      · rw [Nat.max_eq_right hle] at htop
        simp only [List.length_cons] at ht
        omega
      · rw [Nat.max_eq_left hle] at htop
        omega
    have htbound : ((g.get_id p now).2).last_timestamp < 2 ^ timestampBits := by
      omega
    have hnows2 : ∀ pc2 ∈ calls, pc2.2 + calls.length < 2 ^ timestampBits := by
      intro pc2 hpc2
      have := hnows pc2 (List.mem_cons_of_mem _ hpc2)
      simp only [List.length_cons] at this
      omega
    unfold genRunTagged
    refine List.pairwise_cons.mpr ⟨?_, ?_⟩
    · intro pr hpr
      obtain ⟨t, s, hid2, htb, hsb, hlex⟩ := genRunTagged_spec calls
        ((g.get_id p now).2) hseq2 ht2 hnows2 pr hpr
      rw [hmach] at hid2
      have hlex2 : ((g.get_id p now).2).last_timestamp < t ∨
          (((g.get_id p now).2).last_timestamp = t ∧
            ((g.get_id p now).2).sequence < s) := hlex
      by_cases hp : p = pr.1
      · have hlt : (g.get_id p now).1 < pr.2 := by
          rw [hid, hid2, ← hp]
          exact packId_mono p.ordinal g.machine_id hm hseq2 hlex2
        exact ⟨by omega, fun _ => hlt⟩
      · constructor
        · intro heq
          rw [hid, hid2] at heq
          obtain ⟨hpo, -, -⟩ := packId_fields_eq htbound htb hm hseq2 hsb heq
          exact hp (Priority.ordinal_inj hpo)
        · intro hpeq
          exact absurd hpeq hp
    · have := ih ((g.get_id p now).2) (by rw [hmach]; exact hm) hseq2 ht2 hnows2
      exact this

/-- Witness for the amended claim C3 at a concrete run: two URGENT calls in
the same millisecond followed by a NORMAL call. -/
theorem claim_C3_amended_witness :
    List.Pairwise (fun a b : Priority × Nat =>
      a.2 ≠ b.2 ∧ (a.1 = b.1 → a.2 < b.2))
      (genRunTagged (GemstoneGenerator.mk0 1)
        [(Priority.urgent, 5), (Priority.urgent, 5), (Priority.normal, 7)]) :=
  claim_C3_amended_ids_distinct_and_increasing_per_priority
    (GemstoneGenerator.mk0 1)
    [(Priority.urgent, 5), (Priority.urgent, 5), (Priority.normal, 7)]
    (by decide) (by decide) (by decide) (by decide)


/-! ## Storage backend factory lemmas -/

theorem alookup_append_singleton_self {α : Type} {l : List (String × α)}
    {k : String} {v : α} (h : alookup l k = none) :
    alookup (l ++ [(k, v)]) k = some v := by
  induction l with
  | nil => simp [alookup]
  | cons kv rest ih =>
    rcases kv with ⟨k2, v2⟩
    simp only [alookup] at h
    by_cases hk : k2 = k
    · rw [if_pos hk] at h
      exact absurd h (by simp)
    · rw [if_neg hk] at h
      simp only [List.cons_append, alookup]
      rw [if_neg hk]
      exact ih h

theorem alookup_append_singleton_other {α : Type} (l : List (String × α))
    {k k2 : String} (v : α) (hk : k2 ≠ k) :
    alookup (l ++ [(k, v)]) k2 = alookup l k2 := by
  induction l with
  | nil => simp [alookup, Ne.symm hk]
  | cons kv rest ih =>
    rcases kv with ⟨k3, v3⟩
    simp only [List.cons_append, alookup]
    by_cases hk3 : k3 = k2
    · rw [if_pos hk3, if_pos hk3]
    · rw [if_neg hk3, if_neg hk3]
      exact ih

theorem mem_of_alookup_some {α : Type} {l : List (String × α)} {k : String}
    {v : α} (h : alookup l k = some v) : (k, v) ∈ l := by
  induction l with
  | nil => simp [alookup] at h
  | cons kv rest ih =>
    rcases kv with ⟨k2, v2⟩
    unfold alookup at h
    by_cases hk : k2 = k
    · rw [if_pos hk] at h
      simp only [Option.some.injEq] at h
      subst hk
      subst h
      exact List.mem_cons_self _ _
    · rw [if_neg hk] at h
      exact List.mem_cons_of_mem _ (ih h)

theorem pairwise_distinct_vals {l : List (String × Nat)}
    (hp : l.Pairwise (fun a b => a.1 ≠ b.1 ∧ a.2 ≠ b.2))
    {k1 k2 : String} {t1 t2 : Nat}
    (h1 : (k1, t1) ∈ l) (h2 : (k2, t2) ∈ l) (hk : k1 ≠ k2) : t1 ≠ t2 := by
  induction l with
  | nil => simp at h1
  | cons x rest ih =>
    rcases List.pairwise_cons.mp hp with ⟨hx, hrest⟩
    rcases List.mem_cons.mp h1 with rfl | h1t
    · rcases List.mem_cons.mp h2 with heq | h2t
      · exact absurd (congrArg Prod.fst heq.symm) hk
      · exact (hx (k2, t2) h2t).2
    · rcases List.mem_cons.mp h2 with rfl | h2t
      · exact Ne.symm (hx (k1, t1) h1t).2
      · exact ih hrest h1t h2t

theorem string_append_left_cancel {a b c : String} (h : a ++ b = a ++ c) :
    b = c := by
  rcases b with ⟨bd⟩
  rcases c with ⟨cd⟩
  simp only [String.ext_iff, String.data_append] at h ⊢
  exact List.append_cancel_left h

theorem cached_wf_self {st : FactoryState} (k : String) :
    ((st.cached k).2.cached k) = ((st.cached k).1, (st.cached k).2) := by
  unfold FactoryState.cached
  rcases hl : alookup st.stores k with - | t
  · simp only
    rw [alookup_append_singleton_self hl]
  · simp only
    rw [hl]

theorem cached_twice_eq {st : FactoryState} (k : String) {t1 t2 : Nat}
    {stA stB : FactoryState} (h1 : st.cached k = (t1, stA))
    (h2 : stA.cached k = (t2, stB)) : t2 = t1 ∧ stB = stA := by
  have hcc := @cached_wf_self st k
  rw [h1] at hcc
  dsimp only at hcc
  rw [h2] at hcc
  injection hcc with ha hb
  exact ⟨ha, hb⟩

theorem cached_distinct {st : FactoryState} (hwf : st.WF) {k1 k2 : String}
    (hk : k1 ≠ k2) : ((st.cached k1).2.cached k2).1 ≠ (st.cached k1).1 := by
  obtain ⟨hinj, hbound⟩ := hwf
  unfold FactoryState.cached
  rcases hl1 : alookup st.stores k1 with - | t1
  · simp only
    rw [alookup_append_singleton_other _ _ (Ne.symm hk)]
    rcases hl2 : alookup st.stores k2 with - | t2
    · simp only
      omega
    · simp only
      have := hbound _ (mem_of_alookup_some hl2)
      omega
  · simp only
    rcases hl2 : alookup st.stores k2 with - | t2
    · simp only
      have := hbound _ (mem_of_alookup_some hl1)
      omega
    · simp only
      exact Ne.symm (pairwise_distinct_vals hinj (mem_of_alookup_some hl1)
        (mem_of_alookup_some hl2) hk)

theorem cached_keys_distinct {st : FactoryState} (hwf : st.WF)
    {k1 k2 : String} (hk : k1 ≠ k2) {t1 t2 : Nat} {stA stB : FactoryState}
    (h1 : st.cached k1 = (t1, stA)) (h2 : stA.cached k2 = (t2, stB)) :
    t2 ≠ t1 := by
  have hd := cached_distinct hwf hk
  rw [h1] at hd
  dsimp only at hd
  rw [h2] at hd
  exact hd

/-- Claim C4 fails as stated: the SQL branch of
`StorageBackendFactory.from_config` does not cache — two calls with the
identical SQL configuration construct two distinct backend instances. -/
theorem claim_C4_counterexample :
    StorageBackendFactory.from_config
        ⟨"SQL", none, some "sqlite://", false⟩ FactoryState.empty =
      .ok (0, ⟨[], 1⟩) ∧
    StorageBackendFactory.from_config
        ⟨"SQL", none, some "sqlite://", false⟩ ⟨[], 1⟩ =
      .ok (1, ⟨[], 2⟩) ∧
    (0 : Nat) ≠ 1 :=
  ⟨rfl, rfl, by decide⟩

/-- Claim C4 amended: identical configuration returns the very same cached
backend instance for the MEMORY, FILE and REDIS engines, and configurations
whose engine-specific parameters differ (different file paths, different
connection strings) return distinct instances; the SQL branch, however,
constructs a fresh instance on every call instead of caching. -/
theorem claim_C4_amended_caching_except_sql
    (st stA stB : FactoryState) (cfg : StorageConfig) (t1 t2 : Nat)
    (p p2 conn conn2 : String) (hwf : st.WF) :
    ((cfg.type = "MEMORY" ∨ cfg.type = "FILE" ∨ cfg.type = "REDIS") →
      StorageBackendFactory.from_config cfg st = .ok (t1, stA) →
      StorageBackendFactory.from_config cfg stA = .ok (t2, stB) →
      t2 = t1 ∧ stB = stA) ∧
    (cfg.type = "SQL" →
      StorageBackendFactory.from_config cfg st = .ok (t1, stA) →
      StorageBackendFactory.from_config cfg stA = .ok (t2, stB) →
      t2 ≠ t1) ∧
    (p ≠ p2 →
      StorageBackendFactory.from_config ⟨"FILE", some p, none, false⟩ st =
        .ok (t1, stA) →
      StorageBackendFactory.from_config ⟨"FILE", some p2, none, false⟩ stA =
        .ok (t2, stB) →
      t2 ≠ t1) ∧
    (conn ≠ conn2 →
      StorageBackendFactory.from_config ⟨"REDIS", none, some conn, false⟩ st =
        .ok (t1, stA) →
      StorageBackendFactory.from_config ⟨"REDIS", none, some conn2, false⟩ stA =
        .ok (t2, stB) →
      t2 ≠ t1) := by
  refine ⟨?_, ?_, ?_, ?_⟩
  · rintro (hty | hty | hty) h1 h2
    · simp only [StorageBackendFactory.from_config, hty] at h1 h2
      rw [if_true] at h1 h2
      injection h1 with h1
      injection h2 with h2
      exact cached_twice_eq "MEMORY" h1 h2
    · simp only [StorageBackendFactory.from_config, hty] at h1 h2
      rw [if_neg (by decide), if_true] at h1 h2
      rcases hfp : cfg.file_path with - | fp
      · rw [hfp] at h1
        exact absurd h1 (by simp)
      · rw [hfp] at h1 h2
        injection h1 with h1
        injection h2 with h2
        exact cached_twice_eq ("MEMORY:" ++ fp) h1 h2
    · simp only [StorageBackendFactory.from_config, hty] at h1 h2
      rw [if_neg (by decide), if_neg (by decide), if_neg (by decide),
        if_true] at h1 h2
      rcases hcs : cfg.connection_string with - | conn3
      · rw [hcs] at h1
        exact absurd h1 (by simp)
      · rw [hcs] at h1 h2
        injection h1 with h1
        injection h2 with h2
        exact cached_twice_eq ("REDIS:" ++ conn3) h1 h2
  · intro hty h1 h2
    simp only [StorageBackendFactory.from_config, hty] at h1 h2
    rw [if_neg (by decide), if_neg (by decide), if_true] at h1 h2
    rcases hcs : cfg.connection_string with - | conn3
    · rw [hcs] at h1
      exact absurd h1 (by simp)
    · rw [hcs] at h1 h2
      injection h1 with h1
      injection h2 with h2
      injection h1 with h1a h1b
      injection h2 with h2a h2b
      rw [← h2a, ← h1a, ← h1b]
      dsimp only
      omega
  · intro hne h1 h2
    simp only [StorageBackendFactory.from_config] at h1 h2
    rw [if_neg (by decide), if_true] at h1 h2
    injection h1 with h1
    injection h2 with h2
    have hkey : ("MEMORY:" ++ p) ≠ ("MEMORY:" ++ p2) := fun hc =>
      hne (string_append_left_cancel hc)
    exact cached_keys_distinct hwf hkey h1 h2
  · intro hne h1 h2
    simp only [StorageBackendFactory.from_config] at h1 h2
    rw [if_neg (by decide), if_neg (by decide), if_neg (by decide),
      if_true] at h1 h2
    injection h1 with h1
    injection h2 with h2
    have hkey : ("REDIS:" ++ conn) ≠ ("REDIS:" ++ conn2) := fun hc =>
      hne (string_append_left_cancel hc)
    exact cached_keys_distinct hwf hkey h1 h2

/-- Witness for the amended claim C4: on an empty cache, two MEMORY calls
return the same instance. -/
theorem claim_C4_amended_witness :
    FactoryState.empty.WF ∧ (0 = 0 ∧
      (⟨[("MEMORY", 0)], 1⟩ : FactoryState) = ⟨[("MEMORY", 0)], 1⟩) :=
  ⟨⟨List.Pairwise.nil, by simp [FactoryState.empty]⟩,
    (claim_C4_amended_caching_except_sql FactoryState.empty
      ⟨[("MEMORY", 0)], 1⟩ ⟨[("MEMORY", 0)], 1⟩ ⟨"MEMORY", none, none, false⟩
      0 0 "a" "b" "c" "d"
      ⟨List.Pairwise.nil, by simp [FactoryState.empty]⟩).1
      (Or.inl rfl) rfl rfl⟩

/-- Claim C5: `StorageBackendFactory.from_config` fails immediately — never
falling back to a default backend — for every configuration whose type tag is
unknown, and for every configuration that omits a required field for the
chosen type (`file_path` for FILE; `connection_string` for SQL or REDIS). -/
theorem claim_C5_from_config_fails_fast (cfg : StorageConfig)
    (st : FactoryState) :
    (cfg.type ≠ "MEMORY" → cfg.type ≠ "FILE" → cfg.type ≠ "SQL" →
      cfg.type ≠ "REDIS" →
        StorageBackendFactory.from_config cfg st =
          .error (.valueError "Unknown storage backend type")) ∧
    (cfg.type = "FILE" → cfg.file_path = none →
      StorageBackendFactory.from_config cfg st = .error (.keyError "file_path")) ∧
    ((cfg.type = "SQL" ∨ cfg.type = "REDIS") → cfg.connection_string = none →
      StorageBackendFactory.from_config cfg st =
        .error (.keyError "connection_string")) := by
  refine ⟨?_, ?_, ?_⟩
  · intro h1 h2 h3 h4
    simp only [StorageBackendFactory.from_config]
    rw [if_neg h1, if_neg h2, if_neg h3, if_neg h4]
  · intro hty hfp
    simp only [StorageBackendFactory.from_config, hty]
    rw [if_neg (by decide), if_true, hfp]
  · rintro (hty | hty) hcs
    · simp only [StorageBackendFactory.from_config, hty]
      rw [if_neg (by decide), if_neg (by decide), if_true, hcs]
    · simp only [StorageBackendFactory.from_config, hty]
      rw [if_neg (by decide), if_neg (by decide), if_neg (by decide),
        if_true, hcs]

/-- Witness for claim C5: all four failure modes at concrete configs. -/
theorem claim_C5_witness :
    StorageBackendFactory.from_config ⟨"BOGUS", none, none, false⟩
        FactoryState.empty =
      .error (.valueError "Unknown storage backend type") ∧
    StorageBackendFactory.from_config ⟨"FILE", none, none, false⟩
        FactoryState.empty = .error (.keyError "file_path") ∧
    StorageBackendFactory.from_config ⟨"SQL", none, none, false⟩
        FactoryState.empty = .error (.keyError "connection_string") ∧
    StorageBackendFactory.from_config ⟨"REDIS", none, none, false⟩
        FactoryState.empty = .error (.keyError "connection_string") :=
  ⟨(claim_C5_from_config_fails_fast ⟨"BOGUS", none, none, false⟩
      FactoryState.empty).1 (by decide) (by decide) (by decide) (by decide),
    (claim_C5_from_config_fails_fast ⟨"FILE", none, none, false⟩
      FactoryState.empty).2.1 rfl rfl,
    (claim_C5_from_config_fails_fast ⟨"SQL", none, none, false⟩
      FactoryState.empty).2.2 (Or.inl rfl) rfl,
    (claim_C5_from_config_fails_fast ⟨"REDIS", none, none, false⟩
      FactoryState.empty).2.2 (Or.inr rfl) rfl⟩

/-! ## Ensemble manager and ensemble storage lemmas -/

/-- Claim C9: `EnsembleManager.get_ensembles` calls a method that is not
declared on the `EnsembleStorage` abstract interface and that only the SQL
ensemble backend defines; with the MEMORY, FILE or REDIS ensemble storage the
attribute lookup raises `AttributeError` instead of returning a list, while
the SQL storage returns its list. -/
theorem claim_C9_get_ensembles_raises_attribute_error
    (stored : List Ensemble) :
    "get_ensembles" ∉ ensemble_interface_methods ∧
    (∀ kind : EnsembleStorageKind,
      "get_ensembles" ∈ ensemble_storage_methods kind ↔
        kind = EnsembleStorageKind.sql) ∧
    EnsembleManager.get_ensembles EnsembleStorageKind.memory stored =
      .error (.attributeError "get_ensembles") ∧
    EnsembleManager.get_ensembles EnsembleStorageKind.file stored =
      .error (.attributeError "get_ensembles") ∧
    EnsembleManager.get_ensembles EnsembleStorageKind.redis stored =
      .error (.attributeError "get_ensembles") ∧
    EnsembleManager.get_ensembles EnsembleStorageKind.sql stored =
      .ok stored := by
  refine ⟨by decide, ?_, ?_, ?_, ?_, ?_⟩
  · intro kind
    cases kind <;> simp [ensemble_storage_methods]
  · simp only [EnsembleManager.get_ensembles]
    rw [if_neg (by decide)]
  · simp only [EnsembleManager.get_ensembles]
    rw [if_neg (by decide)]
  · simp only [EnsembleManager.get_ensembles]
    rw [if_neg (by decide)]
  · simp only [EnsembleManager.get_ensembles]
    rw [if_pos (by decide)]

theorem alookup_append {α : Type} (l1 l2 : List (String × α)) (k : String) :
    alookup (l1 ++ l2) k =
      match alookup l1 k with
      | some v => some v
      | none => alookup l2 k := by
  induction l1 with
  | nil => simp [alookup]
  | cons kv rest ih =>
    rcases kv with ⟨k2, v2⟩
    simp only [List.cons_append, alookup]
    by_cases hk : k2 = k
    · rw [if_pos hk, if_pos hk]
    · rw [if_neg hk, if_neg hk]
      exact ih

theorem alookup_map_update {α : Type} (old new : List (String × α))
    (k : String) :
    alookup (old.map (fun kv =>
      match alookup new kv.1 with
      | some v => (kv.1, v)
      | none => kv)) k =
      (alookup old k).map (fun v => (alookup new k).getD v) := by
  induction old with
  | nil => simp [alookup]
  | cons kv rest ih =>
    rcases kv with ⟨k2, v2⟩
    simp only [List.map_cons]
    rcases hn : alookup new k2 with - | w
    · simp only [alookup]
      by_cases hk : k2 = k
      · subst hk
        rw [if_pos rfl, if_pos rfl, hn]
        simp
      · rw [if_neg hk, if_neg hk]
        exact ih
    · simp only [alookup]
      by_cases hk : k2 = k
      · subst hk
        rw [if_pos rfl, if_pos rfl, hn]
        simp
      · rw [if_neg hk, if_neg hk]
        exact ih

theorem alookup_filter_none {α : Type} {new : List (String × α)} {k : String}
    (p : String × α → Bool) (hnew : alookup new k = none) :
    alookup (new.filter p) k = none := by
  induction new with
  | nil => simp [alookup]
  | cons kv rest ih =>
    rcases kv with ⟨k2, v2⟩
    simp only [alookup] at hnew
    by_cases hk : k2 = k
    · rw [if_pos hk] at hnew
      exact absurd hnew (by simp)
    · rw [if_neg hk] at hnew
      simp only [List.filter_cons]
      by_cases hp : p (k2, v2)
      · rw [if_pos hp]
        simp only [alookup]
        rw [if_neg hk]
        exact ih hnew
      · rw [if_neg hp]
        exact ih hnew

theorem alookup_dictUpdate_keep {α : Type} (old new : List (String × α))
    (k : String) (hnew : alookup new k = none) :
    alookup (dictUpdate old new) k = alookup old k := by
  unfold dictUpdate
  rw [alookup_append, alookup_map_update]
  rcases ho : alookup old k with - | v
  · simp only [Option.map_none']
    exact alookup_filter_none _ hnew
  · simp only [Option.map_some']
    rw [hnew]
    simp

/-- Claim C10: after `create_ensemble(e)` followed by `update_ensemble(e2)`
with the same id, the in-memory ensemble storage returns an ensemble whose
member dictionary is exactly the members of `e2`, whereas the Redis ensemble
storage returns the union of the previously stored members and the members of
`e2` — a member key present in `e` but absent from `e2` is still returned by
the Redis backend and is gone from the in-memory one. -/
theorem claim_C10_update_ensemble_divergence
    (e e2 : Ensemble) (k : String)
    (m1 m2 : InMemoryEnsembleStorage) (r1 r2 : RedisEnsembleStorage)
    (hid : e2.id = e.id)
    (hne : e.members ≠ [])
    (hk : (alookup e.members k).isSome)
    (hk2 : alookup e2.members k = none)
    (hm1 : InMemoryEnsembleStorage.empty.create_ensemble e = .ok (e.id, m1))
    (hr1 : RedisEnsembleStorage.empty.create_ensemble e = .ok (e.id, r1))
    (hm2 : m1.update_ensemble e2 = .ok m2)
    (hr2 : r1.update_ensemble e2 = .ok r2) :
    m2.get_ensemble e.id = .ok e2 ∧
    alookup e2.members k = none ∧
    r2.get_ensemble e.id =
      .ok ⟨e2.id, e2.name, dictUpdate e.members e2.members⟩ ∧
    (alookup (dictUpdate e.members e2.members) k).isSome := by
  have hc1 : InMemoryEnsembleStorage.empty.create_ensemble e =
      .ok (e.id, ⟨[(e.id, e)]⟩) := by
    simp [InMemoryEnsembleStorage.create_ensemble,
      InMemoryEnsembleStorage.empty, alookup, assocSet]
  rw [hc1] at hm1
  injection hm1 with hm1
  injection hm1 with hm1a hm1b
  subst hm1b
  have hu1 : (⟨[(e.id, e)]⟩ : InMemoryEnsembleStorage).update_ensemble e2 =
      .ok ⟨[(e.id, e2)]⟩ := by
    simp [InMemoryEnsembleStorage.update_ensemble, alookup, assocSet, hid]
  rw [hu1] at hm2
  injection hm2 with hm2
  subst hm2
  have hrc : RedisEnsembleStorage.empty.create_ensemble e =
      .ok (e.id, ⟨[(redis_ensemble_key e.id, e)]⟩) := by
    simp [RedisEnsembleStorage.create_ensemble, RedisEnsembleStorage.empty,
      alookup, assocSet]
  rw [hrc] at hr1
  injection hr1 with hr1
  injection hr1 with hr1a hr1b
  subst hr1b
  have hru : (⟨[(redis_ensemble_key e.id, e)]⟩ :
      RedisEnsembleStorage).update_ensemble e2 =
      .ok ⟨[(redis_ensemble_key e.id,
        ⟨e2.id, e2.name, dictUpdate e.members e2.members⟩)]⟩ := by
    simp [RedisEnsembleStorage.update_ensemble,
      RedisEnsembleStorage.get_ensemble, alookup, assocSet, hid, hne]
  rw [hru] at hr2
  injection hr2 with hr2
  subst hr2
  refine ⟨?_, hk2, ?_, ?_⟩
  · simp [InMemoryEnsembleStorage.get_ensemble, alookup]
  · simp [RedisEnsembleStorage.get_ensemble, alookup]
  · rw [alookup_dictUpdate_keep _ _ _ hk2]
    exact hk

/-- Witness for claim C10 at concrete two-member then one-member ensembles. -/
theorem claim_C10_witness :
    (InMemoryEnsembleStorage.mk
        [("E1", ⟨"E1", "Updated",
          [("m2", ⟨"m2", "Bob", MemberType.human, MemberCommsType.http,
            none, true⟩)]⟩)]).get_ensemble "E1" =
      .ok ⟨"E1", "Updated",
        [("m2", ⟨"m2", "Bob", MemberType.human, MemberCommsType.http,
          none, true⟩)]⟩ ∧
    alookup [("m2", (⟨"m2", "Bob", MemberType.human, MemberCommsType.http,
      none, true⟩ : EnsembleMember))] "m1" = none ∧
    (RedisEnsembleStorage.mk
        [(redis_ensemble_key "E1", ⟨"E1", "Updated",
          dictUpdate
            [("m1", ⟨"m1", "Alice", MemberType.bot, MemberCommsType.http,
              none, true⟩)]
            [("m2", ⟨"m2", "Bob", MemberType.human, MemberCommsType.http,
              none, true⟩)]⟩)]).get_ensemble "E1" =
      .ok ⟨"E1", "Updated",
        dictUpdate
          [("m1", (⟨"m1", "Alice", MemberType.bot, MemberCommsType.http,
            none, true⟩ : EnsembleMember))]
          [("m2", ⟨"m2", "Bob", MemberType.human, MemberCommsType.http,
            none, true⟩)]⟩ ∧
    (alookup (dictUpdate
      [("m1", (⟨"m1", "Alice", MemberType.bot, MemberCommsType.http,
        none, true⟩ : EnsembleMember))]
      [("m2", ⟨"m2", "Bob", MemberType.human, MemberCommsType.http,
        none, true⟩)]) "m1").isSome :=
  claim_C10_update_ensemble_divergence
    ⟨"E1", "Ensemble One",
      [("m1", ⟨"m1", "Alice", MemberType.bot, MemberCommsType.http,
        none, true⟩)]⟩
    ⟨"E1", "Updated",
      [("m2", ⟨"m2", "Bob", MemberType.human, MemberCommsType.http,
        none, true⟩)]⟩
    "m1" _ _ _ _ rfl (by decide) (by decide) (by decide)
    rfl rfl rfl rfl

end RusticAi
